import Mathlib

/-!
Pointsearch: ranked 2D points and rectangle queries.

A shallow embedding of `src/point_search.h` and `src/point_search.cpp`.

* `I8`, `I32` values are integers (`Int`); where the C arithmetic can leave the
  32-bit range the result is wrapped with `wrapI32`.
* `F32` coordinates are exact rational numbers: the comparisons the program makes
  (`<=`, `>=`, `<`, `>`, `==`, `!=`) on non-NaN values are those of a linear order.
* A `Point*` into `allPoints` is the index of the slot it points at; a `Point**`
  into an axis index is an index into that list.
* The caller's output buffer is a function from index to `Point`, so that every
  write, at whatever index, is visible in the final buffer.
* A read outside an array, or running a loop out of fuel, gives `none`.
-/

namespace PointSearch

/-! ## Data model (`point_search.h`) -/

/-- Value of a 32-bit two's-complement register holding the integer `z`. -/
def wrapI32 (z : Int) : Int := (z + 2147483648) % 4294967296 - 2147483648

/-- The `Point` struct: `I8 id; I32 rank; F32 x; F32 y`. -/
structure Point where
  id : Int
  rank : Int
  x : ℚ
  y : ℚ
  deriving DecidableEq

/-- The `Rect` struct: `F32 lx, ly, hx, hy`. -/
structure Rect where
  lx : ℚ
  ly : ℚ
  hx : ℚ
  hy : ℚ
  deriving DecidableEq

/-- Range of the C field types: `id` is an `I8`, `rank` an `I32`. -/
def Point.InRange (p : Point) : Prop :=
  -128 ≤ p.id ∧ p.id ≤ 127 ∧ -2147483648 ≤ p.rank ∧ p.rank ≤ 2147483647

instance (p : Point) : Decidable p.InRange := by
  unfold Point.InRange; infer_instance

/-- The `Object` struct: `numPoints`, the Point Store `allPoints`, and the two
axis indexes, whose entries are positions in `allPoints`. In the Linear build
the axis indexes are never allocated; they are empty here. -/
structure Object where
  numPoints : Int
  allPoints : List Point
  xSorted : List Nat
  ySorted : List Nat
  deriving DecidableEq

/-- A handle whose `numPoints` is the length of its Point Store. -/
def Object.WF (o : Object) : Prop := o.numPoints = (o.allPoints.length : Int)

instance (o : Object) : Decidable o.WF := by
  unfold Object.WF; infer_instance

/-- Macro `POINT_IN_RECT(P,R)`:
`(P->x >= R.lx) && (P->x <= R.hx) && (P->y >= R.ly) && (P->y <= R.hy)`. -/
def POINT_IN_RECT (p : Point) (r : Rect) : Bool :=
  decide (p.x ≥ r.lx) && decide (p.x ≤ r.hx) && decide (p.y ≥ r.ly) && decide (p.y ≤ r.hy)

/-! ## Linear search (`search`, `LINEAR` defined) -/

/-- What a call of `search` can change: the handle and the caller's buffer. -/
structure Mem where
  obj : Object
  out : Nat → Point

/-- The `for` loop of the Linear branch of `search`.
`it` is the offset of `iterator` from `o->allPoints`, `numResults` the running
count (it starts at 0 and only grows, so it is a natural number).
The loop runs while `numResults < count && iterator != allPoints + numPoints`;
each round reads `*iterator`, stores it at `out_points[numResults++]` when it is
inside the rectangle, and advances the iterator. -/
def linearLoop (rect : Rect) (count : Int) :
    Nat → Nat → Nat → Mem → Option (Int × Mem)
  | 0, it, numResults, m =>
    if (numResults : Int) < count ∧ (it : Int) ≠ m.obj.numPoints then none
    else some ((numResults : Int), m)
  | fuel + 1, it, numResults, m =>
    if (numResults : Int) < count ∧ (it : Int) ≠ m.obj.numPoints then
      match m.obj.allPoints[it]? with
      | none => none
      | some p =>
        if POINT_IN_RECT p rect then
          linearLoop rect count fuel (it + 1) (numResults + 1)
            { m with out := Function.update m.out numResults p }
        else
          linearLoop rect count fuel (it + 1) numResults m
    else some ((numResults : Int), m)

/-- Function `search` in the Linear build: returns 0 at once when
`numPoints <= 0`, else runs the scan loop from the start of the store. The
loop needs at most `numPoints` rounds. -/
def searchLinear (o : Object) (rect : Rect) (count : Int) (out_points : Nat → Point) :
    Option (Int × Mem) :=
  if o.numPoints ≤ 0 then some (0, { obj := o, out := out_points })
  else linearLoop rect count o.numPoints.toNat 0 0 { obj := o, out := out_points }

/-- The points found in `out_points[0 .. n)`. -/
def written (out : Nat → Point) (n : Int) : List Point :=
  (List.range n.toNat).map out

/-- The points of a list inside a rectangle, in list order. -/
def inside (rect : Rect) (l : List Point) : List Point :=
  l.filter (fun p => POINT_IN_RECT p rect)

/-! ## Comparators and `qsort` -/

/-- Function `rankComp`: the difference of the ranks (a 32-bit subtraction) when
they differ, else the difference of the ids (promoted to `int`), else `1` or
`-1` by `x`, else `1` or `-1` by `y`. -/
def rankComp (a b : Point) : Int :=
  if a.rank ≠ b.rank then wrapI32 (a.rank - b.rank)
  else if a.id ≠ b.id then a.id - b.id
  else if a.x ≠ b.x then (if a.x > b.x then 1 else -1)
  else (if a.y > b.y then 1 else -1)

/-- Function `pointerComp`: the difference of the two addresses, in elements. -/
def pointerComp (a b : Nat) : Int := (a : Int) - (b : Int)

/-- Function `xComp`, on references into the store. -/
def xComp (store : List Point) (a b : Fin store.length) : Int :=
  if (store.get a).x > (store.get b).x then 1 else -1

/-- Function `yComp`, on references into the store. -/
def yComp (store : List Point) (a b : Fin store.length) : Int :=
  if (store.get a).y > (store.get b).y then 1 else -1

/-- The C library routine `qsort`, which is not part of the repository: an
insertion sort that keeps `a` before `b` when `cmp a b <= 0`. -/
def qsort {α : Type} (cmp : α → α → Int) (l : List α) : List α :=
  l.insertionSort (fun a b => cmp a b ≤ 0)

/-! ## `create` -/

/-- Function `create`. `LINEAR` tells whether the macro `LINEAR` is defined.
`numPoints` is the pointer difference stored in an `I32`; the points are copied
and sorted with `rankComp`; in the Dual-axis build each axis index starts as the
references to slots `0 .. n-1` and is sorted with `xComp`, `yComp` after the
store has been sorted. -/
def create (LINEAR : Bool) (points : List Point) : Object :=
  let allPoints := qsort rankComp points
  { numPoints := wrapI32 (points.length : Int)
    allPoints := allPoints
    xSorted :=
      if LINEAR then []
      else (qsort (xComp allPoints) (List.finRange allPoints.length)).map Fin.val
    ySorted :=
      if LINEAR then []
      else (qsort (yComp allPoints) (List.finRange allPoints.length)).map Fin.val }

/-! ## Boundary search (`safeSearch`, `binarySearch`) -/

/-- Macro `X_AXIS`. -/
def X_AXIS : Int := 0

/-- Macro `Y_AXIS`. -/
def Y_AXIS : Int := 1

/-- Macro `GET_NUMBER(*p, axis)` where `p` is the position `k` in the axis
index `idx`: two reads, of the reference and of the point it refers to. -/
def GET_NUMBER (store : List Point) (idx : List Nat) (axis : Int) (k : Nat) : Option ℚ :=
  match idx[k]? with
  | none => none
  | some i =>
    match store[i]? with
    | none => none
    | some p => some (if axis = X_AXIS then p.x else p.y)

/-- The loops `while (GET_NUMBER(*(p - 1), axis) == number) p--;` of
`binarySearch` (on `begin` and on `end`); the result is the final `p`. -/
def extendDown (store : List Point) (idx : List Nat) (axis : Int) (number : ℚ) :
    Nat → Option Nat
  | 0 => none
  | p + 1 =>
    match GET_NUMBER store idx axis p with
    | none => none
    | some v => if v = number then extendDown store idx axis number p else some (p + 1)

/-- The loops `while (GET_NUMBER(*p, axis) == number) p++;` of `binarySearch`
(on `begin` and on `end`); the result is the final `p`. -/
def extendUp (store : List Point) (idx : List Nat) (axis : Int) (number : ℚ) :
    Nat → Nat → Option Nat
  | 0, _ => none
  | fuel + 1, p =>
    match GET_NUMBER store idx axis p with
    | none => none
    | some v => if v = number then extendUp store idx axis number fuel (p + 1) else some p

/-- Function `binarySearch` on the window `[begin, end)` of the axis index. -/
def binarySearch (store : List Point) (idx : List Nat) (axis : Int) (number : ℚ) (low : Bool) :
    Nat → Nat → Nat → Option Nat
  | 0, _, _ => none
  | fuel + 1, begin, end_ =>
    match GET_NUMBER store idx axis begin with
    | none => none
    | some beginNumber =>
      if end_ = 0 then none
      else
        match GET_NUMBER store idx axis (end_ - 1) with
        | none => none
        | some endNumber =>
          if number < beginNumber then some begin
          else if number > endNumber then some end_
          else if (end_ : Int) - (begin : Int) ≤ 2 then
            if low then (if number < beginNumber then some (end_ - 1) else some begin)
            else (if number > beginNumber then some end_ else some (begin + 1))
          else if number = beginNumber then
            if low then extendDown store idx axis number begin
            else extendUp store idx axis number (idx.length + 1) begin
          else if number = endNumber then
            if low then extendDown store idx axis number end_
            else extendUp store idx axis number (idx.length + 1) end_
          else
            let halfWay := begin + (end_ - begin) / 2
            match GET_NUMBER store idx axis halfWay with
            | none => none
            | some halfWayNumber =>
              if halfWayNumber ≤ number then
                binarySearch store idx axis number low fuel halfWay end_
              else
                binarySearch store idx axis number low fuel begin halfWay

/-- Function `safeSearch`. The recursion of `binarySearch` is given more fuel
than the window has elements; a window of more than two elements is replaced
by a shorter one at each call. -/
def safeSearch (store : List Point) (idx : List Nat) (axis : Int) (number : ℚ) (low : Bool)
    (begin end_ : Nat) : Option Nat :=
  match GET_NUMBER store idx axis begin with
  | none => none
  | some beginNumber =>
    if end_ = 0 then none
    else
      match GET_NUMBER store idx axis (end_ - 1) with
      | none => none
      | some endNumber =>
        if number ≤ beginNumber then some begin
        else if number ≥ endNumber then some end_
        else binarySearch store idx axis number low (end_ - begin + 1) begin end_

/-! ## Dual-axis search (`search`, `LINEAR` not defined) -/

/-- The references copied from `first[0 .. last - first)`; `none` when
`last < first` (the working array is then too short or of negative size) or when
the range leaves the axis index. -/
def copyRange (idx : List Nat) (first last : Nat) : Option (List Nat) :=
  if last < first then none
  else if last = first then some []
  else if last ≤ idx.length then some ((idx.drop first).take (last - first))
  else none

/-- Reading `mergedResults[i]`. The slot one past the end of the working array
holds `pastEnd` (`none`: it cannot be read). -/
def readMerged (merged : List Nat) (pastEnd : Option Nat) (i : Nat) : Option Nat :=
  if i < merged.length then merged[i]?
  else if i = merged.length then pastEnd
  else none

/-- The scan loop of the Dual-axis branch:
`for (i = 0; i < numElements && numResults < count; i++)
   if (mergedResults[i] == mergedResults[i + 1])
     out_points[numResults++] = *mergedResults[i++];`. -/
def scanLoop (merged : List Nat) (pastEnd : Option Nat) (count : Int) :
    Nat → Nat → Nat → Mem → Option (Int × Mem)
  | 0, i, numResults, m =>
    if i < merged.length ∧ (numResults : Int) < count then none
    else some ((numResults : Int), m)
  | fuel + 1, i, numResults, m =>
    if i < merged.length ∧ (numResults : Int) < count then
      match readMerged merged pastEnd i, readMerged merged pastEnd (i + 1) with
      | some a, some b =>
        if a = b then
          match m.obj.allPoints[a]? with
          | none => none
          | some p =>
            scanLoop merged pastEnd count fuel (i + 2) (numResults + 1)
              { m with out := Function.update m.out numResults p }
        else scanLoop merged pastEnd count fuel (i + 1) numResults m
      | _, _ => none
    else some ((numResults : Int), m)

/-- Function `search` in the Dual-axis build. -/
def searchDual (pastEnd : Option Nat) (o : Object) (rect : Rect) (count : Int)
    (out_points : Nat → Point) : Option (Int × Mem) :=
  if o.numPoints ≤ 0 then some (0, { obj := o, out := out_points })
  else
    let n := o.numPoints.toNat
    match safeSearch o.allPoints o.xSorted X_AXIS rect.lx true 0 n,
          safeSearch o.allPoints o.xSorted X_AXIS rect.hx false 0 n,
          safeSearch o.allPoints o.ySorted Y_AXIS rect.ly true 0 n,
          safeSearch o.allPoints o.ySorted Y_AXIS rect.hy false 0 n with
    | some xBegin, some xEnd, some yBegin, some yEnd =>
      match copyRange o.xSorted xBegin xEnd, copyRange o.ySorted yBegin yEnd with
      | some xs, some ys =>
        let mergedResults := qsort pointerComp (xs ++ ys)
        scanLoop mergedResults pastEnd count mergedResults.length 0 0
          { obj := o, out := out_points }
      | _, _ => none
    | _, _, _, _ => none

/-- Function `search`: the branch is chosen by whether `LINEAR` is defined. -/
def search (LINEAR : Bool) (pastEnd : Option Nat) (o : Object) (rect : Rect) (count : Int)
    (out_points : Nat → Point) : Option (Int × Mem) :=
  if LINEAR then searchLinear o rect count out_points
  else searchDual pastEnd o rect count out_points

/-! ## Rank order, as the specification words it -/

/-- Rank order, strict: by `rank` ascending, then `id`, then `x`, then `y`. -/
def rankLt (a b : Point) : Prop :=
  a.rank < b.rank ∨ (a.rank = b.rank ∧ (a.id < b.id ∨ (a.id = b.id ∧
    (a.x < b.x ∨ (a.x = b.x ∧ a.y < b.y)))))

/-- Rank order: `a` precedes `b` or has the same rank, id, x and y. -/
def rankLe (a b : Point) : Prop :=
  a.rank < b.rank ∨ (a.rank = b.rank ∧ (a.id < b.id ∨ (a.id = b.id ∧
    (a.x < b.x ∨ (a.x = b.x ∧ a.y ≤ b.y)))))

instance : DecidableRel rankLt := fun a b => by
  unfold rankLt; infer_instance

instance : DecidableRel rankLe := fun a b => by
  unfold rankLe; infer_instance

/-- The query as specified: keep the points inside the rectangle, sort them
ascending by rank order, take the first `count`. -/
def specSearch (pts : List Point) (rect : Rect) (count : Int) : List Point :=
  ((inside rect pts).insertionSort rankLe).take count.toNat

/-- The ranks of a list span less than `2^31`: no difference of two of them
leaves the 32-bit range. -/
def SmallRankSpread (l : List Point) : Prop :=
  ∀ a ∈ l, ∀ b ∈ l, -2147483648 ≤ a.rank - b.rank ∧ a.rank - b.rank ≤ 2147483647

instance (l : List Point) : Decidable (SmallRankSpread l) := by
  unfold SmallRankSpread; infer_instance

/-! ## Sample data -/

/-- All-zero buffer contents. -/
def zeroBuf : Nat → Point := fun _ => ⟨0, 0, 0, 0⟩

/-- Five points on the line `y = x` with ranks 5, 3, 1, 4, 2. -/
def linePts : List Point :=
  [⟨0, 5, 0, 0⟩, ⟨1, 3, 1, 1⟩, ⟨2, 1, 2, 2⟩, ⟨3, 4, 3, 3⟩, ⟨4, 2, 4, 4⟩]

/-- Ten points at `(1, 1)` with ranks 9 down to 0. -/
def coincidentPts : List Point :=
  (List.range 10).map (fun i => ⟨(i : Int), 9 - (i : Int), 1, 1⟩)

/-- The rectangle `[0, 4] x [0, 4]`. -/
def lineRect : Rect := ⟨0, 0, 4, 4⟩

/-- A point of rank `1` at the origin. -/
def rankOne : Point := ⟨0, 1, 0, 0⟩

/-- A point at the origin whose rank is the least 32-bit integer. -/
def rankLeast : Point := ⟨0, -2147483648, 0, 0⟩

/-- The two points `rankOne`, `rankLeast`, in this order. -/
def farPts : List Point := [rankOne, rankLeast]

/-- The result of a search as a pair: the value returned and the points found
in `out_points[0 .. numResults)`. -/
def resultOf (r : Option (Int × Mem)) : Option (Int × List Point) :=
  r.map (fun q => (q.1, written q.2.out q.1))

/-- Three points on the line `y = x` at 0, 1, 2 with ranks 0, 1, 2. -/
def diagPts : List Point := [⟨0, 0, 0, 0⟩, ⟨1, 1, 1, 1⟩, ⟨2, 2, 2, 2⟩]

/-- The rectangle `[-1, 0] x [-1, 0]`, whose upper corner is the first of `diagPts`. -/
def cornerRect : Rect := ⟨-1, -1, 0, 0⟩

/-- Function `binarySearch` again, without fuel: the recursion is on the window
length `end - begin`, which the two recursive calls make smaller. -/
def binarySearchWF (store : List Point) (idx : List Nat) (axis : Int) (number : ℚ) (low : Bool)
    (begin end_ : Nat) : Option Nat :=
  match GET_NUMBER store idx axis begin with
  | none => none
  | some beginNumber =>
    if end_ = 0 then none
    else
      match GET_NUMBER store idx axis (end_ - 1) with
      | none => none
      | some endNumber =>
        if number < beginNumber then some begin
        else if number > endNumber then some end_
        else if hlen : (end_ : Int) - (begin : Int) ≤ 2 then
          if low then (if number < beginNumber then some (end_ - 1) else some begin)
          else (if number > beginNumber then some end_ else some (begin + 1))
        else if number = beginNumber then
          if low then extendDown store idx axis number begin
          else extendUp store idx axis number (idx.length + 1) begin
        else if number = endNumber then
          if low then extendDown store idx axis number end_
          else extendUp store idx axis number (idx.length + 1) end_
        else
          match GET_NUMBER store idx axis (begin + (end_ - begin) / 2) with
          | none => none
          | some halfWayNumber =>
            if halfWayNumber ≤ number then
              binarySearchWF store idx axis number low (begin + (end_ - begin) / 2) end_
            else
              binarySearchWF store idx axis number low begin (begin + (end_ - begin) / 2)
termination_by end_ - begin
decreasing_by
  all_goals simp_wf
  all_goals omega

/-- The merge and scan of the Dual-axis branch on the two copied sub-ranges
`xs`, `ys`: concatenate, `qsort` with `pointerComp`, run the scan loop. -/
def mergeAndScan (pastEnd : Option Nat) (o : Object) (count : Int) (out_points : Nat → Point)
    (xs ys : List Nat) : Option (Int × Mem) :=
  let mergedResults := qsort pointerComp (xs ++ ys)
  scanLoop mergedResults pastEnd count mergedResults.length 0 0
    { obj := o, out := out_points }

/-- The first elements of the adjacent equal pairs of a list, read from the
left, a pair being skipped once found. -/
def adjacentPairs : List Nat → List Nat
  | [] => []
  | [_] => []
  | a :: b :: l => if a = b then a :: adjacentPairs l else adjacentPairs (b :: l)

/-- The positions of a store of `n` slots referenced both in `xs` and in `ys`,
in ascending order, each once. -/
def bothReferenced (n : Nat) (xs ys : List Nat) : List Nat :=
  (List.range n).filter (fun i => decide (i ∈ xs ∧ i ∈ ys))

/-- The points in the store slots `refs`, in order. -/
def derefAll (store : List Point) (refs : List Nat) : List Point :=
  refs.filterMap (fun a => store[a]?)

/-! ## Boundary search: the contract and the data it is checked on -/

/-- The coordinates, on `axis`, of the points an axis index refers to, in index
order; `none` when a reference leaves the store. -/
def axisValues (store : List Point) (axis : Int) : List Nat → Option (List ℚ)
  | [] => some []
  | i :: rest =>
    match store[i]?, axisValues store axis rest with
    | some p, some l => some ((if axis = X_AXIS then p.x else p.y) :: l)
    | _, _ => none

/-- The boundary search contract for the lower bound, on the list of
coordinates: the first index whose coordinate is `>= v`, the length if there is
none. -/
def specLow (c : List ℚ) (v : ℚ) : Nat :=
  c.findIdx (fun a => decide (v ≤ a))

/-- The boundary search contract for the upper bound, on the list of
coordinates: one past the last index whose coordinate is `<= v`, 0 if there is
none. -/
def specHigh (c : List ℚ) (v : ℚ) : Nat :=
  c.length - c.reverse.findIdx (fun a => decide (a ≤ v))

/-- Four points with x = 0, 1, 1, 2 (ranks 0..3, all at y = 0). -/
def dupPts : List Point := [⟨0, 0, 0, 0⟩, ⟨1, 1, 1, 0⟩, ⟨2, 2, 1, 0⟩, ⟨3, 3, 2, 0⟩]

/-- Three points with x = 0, 0, 1: a run of equal values at the start. -/
def startRunPts : List Point := [⟨0, 0, 0, 0⟩, ⟨1, 1, 0, 0⟩, ⟨2, 2, 1, 0⟩]

/-- Three points with x = 0, 1, 1: a run of equal values at the end. -/
def endRunPts : List Point := [⟨0, 0, 0, 0⟩, ⟨1, 1, 1, 0⟩, ⟨2, 2, 1, 0⟩]

/-- Five points with x = 0, 2, 4, 6, 8 and y = 0, 10, 2, 14, 4 (ranks 0..4). -/
def probePts : List Point :=
  [⟨0, 0, 0, 0⟩, ⟨1, 1, 2, 10⟩, ⟨2, 2, 4, 2⟩, ⟨3, 3, 6, 14⟩, ⟨4, 4, 8, 4⟩]

/-- The rectangle `[1, 7] x [0, 16]`. -/
def probeRect : Rect := ⟨1, 0, 7, 16⟩

/-- One point, at the origin. -/
def singlePts : List Point := [⟨0, 0, 0, 0⟩]

/-- The rectangle `[-1, 1] x [-3, -2]`, which lies below the origin. -/
def belowRect : Rect := ⟨-1, -3, 1, -2⟩

/-- Sign of an integer: `-1`, `0` or `1`. -/
def sgn (z : Int) : Int := if z < 0 then -1 else if z = 0 then 0 else 1

/-- Storing the points of `l` at `out[n]`, `out[n+1]`, ... in turn. -/
def writeList (out : Nat → Point) : Nat → List Point → Nat → Point
  | _, [] => out
  | n, p :: l => writeList (Function.update out n p) (n + 1) l

/-! ### Lemmas on the buffer -/

theorem writeList_lt (l : List Point) : ∀ (out : Nat → Point) (n i : Nat), i < n →
    writeList out n l i = out i := by
  induction l with
  | nil => intro out n i _; rfl
  | cons p l ih =>
    intro out n i h
    simp only [writeList]
    rw [ih _ _ _ (Nat.lt_succ_of_lt h), Function.update_noteq (Nat.ne_of_lt h)]

theorem writeList_ge (l : List Point) : ∀ (out : Nat → Point) (n i : Nat), n + l.length ≤ i →
    writeList out n l i = out i := by
  induction l with
  | nil => intro out n i _; rfl
  | cons p l ih =>
    intro out n i h
    simp only [writeList]
    simp only [List.length_cons] at h
    rw [ih _ _ _ (by omega), Function.update_noteq (by omega)]

theorem writeList_get (l : List Point) : ∀ (out : Nat → Point) (n j : Nat) (h : j < l.length),
    writeList out n l (n + j) = l[j] := by
  induction l with
  | nil => intro out n j h; simp at h
  | cons p l ih =>
    intro out n j h
    simp only [writeList]
    cases j with
    | zero =>
      show writeList (Function.update out n p) (n + 1) l n = p
      rw [writeList_lt _ _ _ _ (Nat.lt_succ_self n), Function.update_same]
    | succ j =>
      have h2 : j < l.length := by simpa using h
      have e : n + (j + 1) = (n + 1) + j := by omega
      rw [e, ih _ _ _ h2]
      rfl

theorem written_writeList (out : Nat → Point) (l : List Point) :
    written (writeList out 0 l) (l.length : Int) = l := by
  unfold written
  apply List.ext_getElem
  · simp
  · intro i h1 h2
    simp only [List.getElem_map, List.getElem_range]
    have := writeList_get l out 0 i h2
    rwa [Nat.zero_add] at this

/-! ### The loop computes `take count (filter inRect store)` -/

theorem linearLoop_eq (rect : Rect) (count : Int) :
    ∀ (fuel it n : Nat) (m : Mem), m.obj.WF → it ≤ m.obj.allPoints.length →
      m.obj.allPoints.length - it ≤ fuel →
      linearLoop rect count fuel it n m =
        some (((n + ((inside rect (m.obj.allPoints.drop it)).take (count - n).toNat).length : Nat) : Int),
          { obj := m.obj,
            out := writeList m.out n
              ((inside rect (m.obj.allPoints.drop it)).take (count - n).toNat) }) := by
  intro fuel
  induction fuel with
  | zero =>
    intro it n m hwf hle hfuel
    have hit : it = m.obj.allPoints.length := by omega
    have hnp : m.obj.numPoints = (m.obj.allPoints.length : Int) := hwf
    subst hit
    simp [linearLoop, hnp, inside, writeList]
  | succ fuel ih =>
    intro it n m hwf hle hfuel
    unfold linearLoop
    by_cases hc : (n : Int) < count ∧ (it : Int) ≠ m.obj.numPoints
    · rw [if_pos hc]
      have hne : it ≠ m.obj.allPoints.length := by
        intro h; apply hc.2; rw [hwf, h]
      have hlt : it < m.obj.allPoints.length := lt_of_le_of_ne hle hne
      rw [List.getElem?_eq_getElem hlt]
      have hdrop : m.obj.allPoints.drop it = m.obj.allPoints[it] :: m.obj.allPoints.drop (it + 1) :=
        List.drop_eq_getElem_cons hlt
      have hcnt : (count - (n : Int)).toNat = (count - ((n + 1 : Nat) : Int)).toNat + 1 := by
        have := hc.1
        omega
      by_cases hin : POINT_IN_RECT m.obj.allPoints[it] rect = true
      · simp only [hin, if_true]
        rw [ih (it + 1) (n + 1) ⟨m.obj, Function.update m.out n m.obj.allPoints[it]⟩ hwf hlt
          (by simp only []; omega)]
        simp only [hdrop, inside, List.filter_cons, hin, if_true]
        rw [hcnt, List.take_succ_cons]
        simp only [List.length_cons, writeList]
        congr 2
        push_cast
        omega
      · simp only [hin]
        rw [ih (it + 1) n m hwf hlt (by omega)]
        simp only [hdrop, inside, List.filter_cons, hin]
        rfl
    · rw [if_neg hc]
      rw [not_and_or, not_not] at hc
      rcases hc with hc | hc
      · have h0 : (count - (n : Int)).toNat = 0 := by omega
        simp [h0, writeList]
      · have hit : it = m.obj.allPoints.length := by
          rw [hwf] at hc; exact_mod_cast hc
        simp [hit, inside, writeList]

/-- The Linear `search` on a well-formed handle: it returns, the count is the
length of `take count (filter inRect store)`, the buffer holds that list from
index 0 on and is otherwise untouched, and the handle is the one passed in. -/
theorem searchLinear_eq (o : Object) (rect : Rect) (count : Int) (out_points : Nat → Point)
    (hwf : o.WF) :
    searchLinear o rect count out_points =
      some ((((inside rect o.allPoints).take count.toNat).length : Int),
        { obj := o,
          out := writeList out_points 0 ((inside rect o.allPoints).take count.toNat) }) := by
  unfold searchLinear
  by_cases h0 : o.numPoints ≤ 0
  · rw [if_pos h0]
    have hlen : o.allPoints.length = 0 := by
      have : o.numPoints = (o.allPoints.length : Int) := hwf
      omega
    have hnil : o.allPoints = [] := List.length_eq_zero.mp hlen
    simp [hnil, inside, writeList]
  · rw [if_neg h0]
    have hfuel : o.allPoints.length - 0 ≤ o.numPoints.toNat := by
      have : o.numPoints = (o.allPoints.length : Int) := hwf
      omega
    rw [linearLoop_eq rect count o.numPoints.toNat 0 0 { obj := o, out := out_points } hwf
      (Nat.zero_le _) hfuel]
    simp

/-! ### Facts on `inside` -/

theorem POINT_IN_RECT_iff (p : Point) (r : Rect) :
    POINT_IN_RECT p r = true ↔ r.lx ≤ p.x ∧ p.x ≤ r.hx ∧ r.ly ≤ p.y ∧ p.y ≤ r.hy := by
  simp [POINT_IN_RECT, and_assoc]

theorem mem_inside {rect : Rect} {l : List Point} {p : Point} :
    p ∈ inside rect l ↔ p ∈ l ∧ POINT_IN_RECT p rect = true := by
  simp [inside]

theorem inside_append (rect : Rect) (l₁ l₂ : List Point) :
    inside rect (l₁ ++ l₂) = inside rect l₁ ++ inside rect l₂ := by
  simp [inside]

/-! ## Claims on the Linear search -/

/-- C2: on every well-formed handle, for every rectangle and every count, the
Linear `search` returns; the points it leaves in `out_points[0 .. numResults)`
are exactly the first `count` elements, in store order, of the store points with
`lx <= x <= hx` and `ly <= y <= hy` (none when `count <= 0`), and the value
returned is the length of that list. A store point that meets the four
inclusive bounds, for instance one with `x = lx`, is inside, and it is returned,
at the position given by the number of earlier matches, whenever fewer than
`count` earlier store points matched. -/
theorem searchLinear_take_filter (o : Object) (rect : Rect) (count : Int)
    (out_points : Nat → Point) (hwf : o.WF) :
    ∃ (n : Int) (m : Mem), searchLinear o rect count out_points = some (n, m) ∧
      written m.out n = (inside rect o.allPoints).take count.toNat ∧
      n = (((inside rect o.allPoints).take count.toNat).length : Int) ∧
      ∀ (i : Nat) (hi : i < o.allPoints.length),
        rect.lx ≤ o.allPoints[i].x → o.allPoints[i].x ≤ rect.hx →
        rect.ly ≤ o.allPoints[i].y → o.allPoints[i].y ≤ rect.hy →
        POINT_IN_RECT o.allPoints[i] rect = true ∧
        (((inside rect (o.allPoints.take i)).length : Int) < count →
          (written m.out n)[(inside rect (o.allPoints.take i)).length]? =
            some o.allPoints[i]) := by
  refine ⟨_, _, searchLinear_eq o rect count out_points hwf, written_writeList _ _, rfl, ?_⟩
  intro i hi h1 h2 h3 h4
  have hin : POINT_IN_RECT o.allPoints[i] rect = true :=
    (POINT_IN_RECT_iff _ _).mpr ⟨h1, h2, h3, h4⟩
  refine ⟨hin, fun hk => ?_⟩
  simp only []
  rw [written_writeList]
  have hsplit : o.allPoints = o.allPoints.take i ++ o.allPoints[i] :: o.allPoints.drop (i + 1) := by
    rw [← List.drop_eq_getElem_cons hi, List.take_append_drop]
  have hk' : (inside rect (o.allPoints.take i)).length < count.toNat := by omega
  have hF : inside rect o.allPoints =
      inside rect (o.allPoints.take i) ++ o.allPoints[i] :: inside rect (o.allPoints.drop (i + 1)) := by
    have hcons : inside rect (o.allPoints[i] :: o.allPoints.drop (i + 1)) =
        o.allPoints[i] :: inside rect (o.allPoints.drop (i + 1)) := by
      unfold inside
      rw [List.filter_cons, if_pos hin]
    exact (congrArg (inside rect) hsplit).trans (by rw [inside_append, hcons])
  rw [List.getElem?_take_of_lt hk', hF, List.getElem?_append_right (le_refl _)]
  simp

/-- C4: on every well-formed handle, for every rectangle (no order between its
bounds is assumed) and every count, every point the Linear `search` leaves in
`out_points[0 .. numResults)` has `lx <= x <= hx` and `ly <= y <= hy`; the
store need not be sorted. -/
theorem searchLinear_results_inside (o : Object) (rect : Rect) (count : Int)
    (out_points : Nat → Point) (hwf : o.WF) :
    ∃ (n : Int) (m : Mem), searchLinear o rect count out_points = some (n, m) ∧
      ∀ i : Nat, (i : Int) < n →
        rect.lx ≤ (m.out i).x ∧ (m.out i).x ≤ rect.hx ∧
        rect.ly ≤ (m.out i).y ∧ (m.out i).y ≤ rect.hy := by
  refine ⟨_, _, searchLinear_eq o rect count out_points hwf, ?_⟩
  intro i hi
  have hi' : i < ((inside rect o.allPoints).take count.toNat).length := by exact_mod_cast hi
  have hget := writeList_get _ out_points 0 i hi'
  rw [Nat.zero_add] at hget
  simp only []
  rw [hget]
  have hmem : ((inside rect o.allPoints).take count.toNat)[i] ∈ inside rect o.allPoints :=
    List.mem_of_mem_take (List.getElem_mem hi')
  exact (POINT_IN_RECT_iff _ _).mp (mem_inside.mp hmem).2

/-- C5: on every well-formed handle, for every rectangle and every count `>= 0`,
the Linear `search` returns `min(count, m)`, `m` being the number of store
entries inside the rectangle; the value is not negative, not above `count`, not
above `m`, and it is 0 when `numPoints = 0` and when no store point matches. -/
theorem searchLinear_count (o : Object) (rect : Rect) (count : Int)
    (out_points : Nat → Point) (hwf : o.WF) (hcount : 0 ≤ count) :
    ∃ (n : Int) (m : Mem), searchLinear o rect count out_points = some (n, m) ∧
      n = min count ((inside rect o.allPoints).length : Int) ∧
      0 ≤ n ∧ n ≤ count ∧ n ≤ ((inside rect o.allPoints).length : Int) ∧
      (o.numPoints = 0 → n = 0) ∧
      (inside rect o.allPoints = [] → n = 0) := by
  refine ⟨_, _, searchLinear_eq o rect count out_points hwf, ?_⟩
  have hlen : (((inside rect o.allPoints).take count.toNat).length : Int) =
      min count ((inside rect o.allPoints).length : Int) := by
    rw [List.length_take]
    have : ((count.toNat : Nat) : Int) = count := Int.toNat_of_nonneg hcount
    omega
  refine ⟨hlen, ?_, ?_, ?_, ?_, ?_⟩
  · exact Int.natCast_nonneg _
  · rw [hlen]; exact min_le_left _ _
  · rw [hlen]; exact min_le_right _ _
  · intro h0
    have hl : o.allPoints.length = 0 := by
      have : o.numPoints = (o.allPoints.length : Int) := hwf
      omega
    have hnil : o.allPoints = [] := List.length_eq_zero.mp hl
    simp [hnil, inside]
  · intro hnil
    simp [hnil]

/-- C6: on a well-formed handle whose store is sorted under rank order, the
sequence the Linear `search` returns is non-decreasing under rank order, and
every store point inside the rectangle that is not returned (the matches after
the first `numResults`, so also every matching store point that does not occur
among the results) is greater than or equal to every returned point. -/
theorem searchLinear_lowest_ranks (o : Object) (rect : Rect) (count : Int)
    (out_points : Nat → Point) (hwf : o.WF) (hsorted : o.allPoints.Pairwise rankLe) :
    ∃ (n : Int) (m : Mem), searchLinear o rect count out_points = some (n, m) ∧
      (written m.out n).Pairwise rankLe ∧
      (∀ q ∈ (inside rect o.allPoints).drop n.toNat, ∀ p ∈ written m.out n, rankLe p q) ∧
      (∀ q ∈ o.allPoints, POINT_IN_RECT q rect = true → q ∉ written m.out n →
        ∀ p ∈ written m.out n, rankLe p q) := by
  refine ⟨_, _, searchLinear_eq o rect count out_points hwf, ?_⟩
  simp only []
  rw [written_writeList]
  have hF : (inside rect o.allPoints).Pairwise rankLe :=
    hsorted.sublist (List.filter_sublist o.allPoints)
  have hrel : ∀ q ∈ (inside rect o.allPoints).drop count.toNat,
      ∀ p ∈ (inside rect o.allPoints).take count.toNat, rankLe p q := by
    intro q hq p hp
    exact List.Sorted.rel_of_mem_take_of_mem_drop hF hp hq
  refine ⟨hF.sublist (List.take_sublist _ _), ?_, ?_⟩
  · intro q hq p hp
    rw [Int.toNat_ofNat, List.length_take] at hq
    rcases Nat.le_total count.toNat (inside rect o.allPoints).length with h | h
    · rw [Nat.min_eq_left h] at hq
      exact hrel q hq p hp
    · rw [Nat.min_eq_right h, List.drop_length] at hq
      simp at hq
  · intro q hq hin hnot p hp
    have hqF : q ∈ inside rect o.allPoints := mem_inside.mpr ⟨hq, hin⟩
    rw [← List.take_append_drop count.toNat (inside rect o.allPoints), List.mem_append] at hqF
    rcases hqF with h | h
    · exact absurd h hnot
    · exact hrel q h p hp

/-- C10: on every well-formed handle, for every rectangle, every count `>= 0`
and every initial buffer, the Linear `search` returns `numResults <= count`,
every buffer entry at an index `>= numResults` (so every index `>= count`) is
what it was before the call, and the handle, with its `numPoints` and its Point
Store, is what it was before the call. -/
theorem searchLinear_frame (o : Object) (rect : Rect) (count : Int)
    (out_points : Nat → Point) (hwf : o.WF) (hcount : 0 ≤ count) :
    ∃ (n : Int) (m : Mem), searchLinear o rect count out_points = some (n, m) ∧
      0 ≤ n ∧ n ≤ count ∧
      (∀ i : Nat, n ≤ (i : Int) → m.out i = out_points i) ∧
      (∀ i : Nat, count ≤ (i : Int) → m.out i = out_points i) ∧
      m.obj = o ∧ m.obj.numPoints = o.numPoints ∧ m.obj.allPoints = o.allPoints := by
  refine ⟨_, _, searchLinear_eq o rect count out_points hwf, ?_⟩
  have hle : (((inside rect o.allPoints).take count.toNat).length : Int) ≤ count := by
    rw [List.length_take]
    have : ((count.toNat : Nat) : Int) = count := Int.toNat_of_nonneg hcount
    omega
  have hframe : ∀ i : Nat, (((inside rect o.allPoints).take count.toNat).length : Int) ≤ (i : Int) →
      writeList out_points 0 ((inside rect o.allPoints).take count.toNat) i = out_points i := by
    intro i hi
    apply writeList_ge
    have : ((inside rect o.allPoints).take count.toNat).length ≤ i := by exact_mod_cast hi
    omega
  refine ⟨Int.natCast_nonneg _, hle, hframe, ?_, rfl, rfl, rfl⟩
  intro i hi
  exact hframe i (le_trans hle hi)

/-- The Linear `search` of C2 run on the store built from `linePts`. -/
theorem searchLinear_take_filter_witness :
    (create true linePts).WF ∧
    ∃ (n : Int) (m : Mem), searchLinear (create true linePts) lineRect 3 zeroBuf = some (n, m) ∧
      written m.out n = (inside lineRect (create true linePts).allPoints).take (3 : Int).toNat ∧
      n = (((inside lineRect (create true linePts).allPoints).take (3 : Int).toNat).length : Int) ∧
      ∀ (i : Nat) (hi : i < (create true linePts).allPoints.length),
        lineRect.lx ≤ (create true linePts).allPoints[i].x →
        (create true linePts).allPoints[i].x ≤ lineRect.hx →
        lineRect.ly ≤ (create true linePts).allPoints[i].y →
        (create true linePts).allPoints[i].y ≤ lineRect.hy →
        POINT_IN_RECT (create true linePts).allPoints[i] lineRect = true ∧
        (((inside lineRect ((create true linePts).allPoints.take i)).length : Int) < 3 →
          (written m.out n)[(inside lineRect ((create true linePts).allPoints.take i)).length]? =
            some (create true linePts).allPoints[i]) :=
  ⟨by decide, searchLinear_take_filter (create true linePts) lineRect 3 zeroBuf (by decide)⟩

/-- The Linear `search` of C4 run on the store built from `diagPts`. -/
theorem searchLinear_results_inside_witness :
    (create true diagPts).WF ∧
    ∃ (n : Int) (m : Mem), searchLinear (create true diagPts) cornerRect 3 zeroBuf = some (n, m) ∧
      ∀ i : Nat, (i : Int) < n →
        cornerRect.lx ≤ (m.out i).x ∧ (m.out i).x ≤ cornerRect.hx ∧
        cornerRect.ly ≤ (m.out i).y ∧ (m.out i).y ≤ cornerRect.hy :=
  ⟨by decide, searchLinear_results_inside (create true diagPts) cornerRect 3 zeroBuf (by decide)⟩

/-- Scenario C for C5: ten coincident points inside the rectangle, `count = 2`;
the search returns 2. -/
theorem searchLinear_count_witness :
    (create true coincidentPts).WF ∧ (0 : Int) ≤ 2 ∧
    (searchLinear (create true coincidentPts) lineRect 2 zeroBuf).map Prod.fst = some 2 ∧
    ∃ (n : Int) (m : Mem),
      searchLinear (create true coincidentPts) lineRect 2 zeroBuf = some (n, m) ∧
      n = min 2 ((inside lineRect (create true coincidentPts).allPoints).length : Int) ∧
      0 ≤ n ∧ n ≤ 2 ∧ n ≤ ((inside lineRect (create true coincidentPts).allPoints).length : Int) ∧
      ((create true coincidentPts).numPoints = 0 → n = 0) ∧
      (inside lineRect (create true coincidentPts).allPoints = [] → n = 0) :=
  ⟨by decide, by decide, by decide,
    searchLinear_count (create true coincidentPts) lineRect 2 zeroBuf (by decide) (by decide)⟩

/-- The Linear `search` of C6 run on the sorted store built from `linePts`. -/
theorem searchLinear_lowest_ranks_witness :
    (create true linePts).WF ∧ (create true linePts).allPoints.Pairwise rankLe ∧
    ∃ (n : Int) (m : Mem), searchLinear (create true linePts) lineRect 3 zeroBuf = some (n, m) ∧
      (written m.out n).Pairwise rankLe ∧
      (∀ q ∈ (inside lineRect (create true linePts).allPoints).drop n.toNat,
        ∀ p ∈ written m.out n, rankLe p q) ∧
      (∀ q ∈ (create true linePts).allPoints, POINT_IN_RECT q lineRect = true →
        q ∉ written m.out n → ∀ p ∈ written m.out n, rankLe p q) :=
  ⟨by decide, by decide,
    searchLinear_lowest_ranks (create true linePts) lineRect 3 zeroBuf (by decide) (by decide)⟩

/-- The Linear `search` of C10 run on the store built from `coincidentPts`. -/
theorem searchLinear_frame_witness :
    (create true coincidentPts).WF ∧ (0 : Int) ≤ 2 ∧
    ∃ (n : Int) (m : Mem),
      searchLinear (create true coincidentPts) lineRect 2 zeroBuf = some (n, m) ∧
      0 ≤ n ∧ n ≤ 2 ∧
      (∀ i : Nat, n ≤ (i : Int) → m.out i = zeroBuf i) ∧
      (∀ i : Nat, (2 : Int) ≤ (i : Int) → m.out i = zeroBuf i) ∧
      m.obj = create true coincidentPts ∧
      m.obj.numPoints = (create true coincidentPts).numPoints ∧
      m.obj.allPoints = (create true coincidentPts).allPoints :=
  ⟨by decide, by decide,
    searchLinear_frame (create true coincidentPts) lineRect 2 zeroBuf (by decide) (by decide)⟩

/-! ## `rankComp` and the rank order -/

theorem wrapI32_of_inRange (z : Int) (h1 : -2147483648 ≤ z) (h2 : z ≤ 2147483647) :
    wrapI32 z = z := by
  unfold wrapI32
  omega

/-- When the difference of the two ranks fits in 32 bits, `rankComp` is
negative on a pair in strict rank order and positive on the reversed pair. -/
theorem rankComp_sign_of_small_difference (a b : Point)
    (h1 : -2147483648 ≤ a.rank - b.rank) (h2 : a.rank - b.rank ≤ 2147483647) :
    (rankLt a b → rankComp a b < 0) ∧ (rankLt b a → 0 < rankComp a b) := by
  unfold rankLt rankComp
  by_cases hr : a.rank = b.rank
  · by_cases hi : a.id = b.id
    · by_cases hx : a.x = b.x
      · simp only [hr, hi, hx, ne_eq, not_true_eq_false, if_false, lt_self_iff_false,
          true_and, false_or, gt_iff_lt]
        constructor
        · intro h
          rw [if_neg (not_lt.mpr h.le)]
          decide
        · intro h
          rw [if_pos h]
          decide
      · simp only [hr, hi, ne_eq, not_true_eq_false, if_false, lt_self_iff_false,
          true_and, false_or, hx, not_false_eq_true, if_true, gt_iff_lt]
        constructor
        · rintro (h | ⟨h, _⟩)
          · rw [if_neg (not_lt.mpr h.le)]
            decide
          · exact h.elim
        · rintro (h | ⟨h, _⟩)
          · rw [if_pos h]
            decide
          · exact absurd h.symm hx
    · simp only [hr, ne_eq, not_true_eq_false, if_false, lt_self_iff_false, true_and,
        false_or, hi, not_false_eq_true, if_true]
      constructor
      · rintro (h | ⟨h, _⟩)
        · omega
        · exact h.elim
      · rintro (h | ⟨h, _⟩)
        · omega
        · exact absurd h.symm hi
  · simp only [ne_eq, hr, not_false_eq_true, if_true]
    rw [wrapI32_of_inRange _ h1 h2]
    constructor
    · rintro (h | ⟨h, _⟩)
      · omega
      · exact h.elim
    · rintro (h | ⟨h, _⟩)
      · omega
      · exact absurd h.symm hr

/-- C9: `rankLeast` (rank -2147483648) precedes `rankOne` (rank 1) in rank order,
both are in the range of the field types, yet `rankComp rankLeast rankOne` is
`2147483647 > 0` and `rankComp rankOne rankLeast` is `-2147483647 < 0`: the
32-bit subtraction of the ranks wraps around. -/
theorem rankComp_wraps_on_far_ranks :
    rankLeast.InRange ∧ rankOne.InRange ∧ rankLeast ≠ rankOne ∧ rankLt rankLeast rankOne ∧
    rankComp rankLeast rankOne = 2147483647 ∧ ¬ (rankComp rankLeast rankOne < 0) ∧
    rankComp rankOne rankLeast = -2147483647 ∧ ¬ (0 < rankComp rankOne rankLeast) := by
  decide

/-! ## What holds when no rank difference overflows -/

/-- The sort key of rank order: rank, then id, then x, then y. -/
theorem rankLe_iff_key (a b : Point) :
    rankLe a b ↔
      toLex (a.rank, toLex (a.id, toLex (a.x, a.y))) ≤
        toLex (b.rank, toLex (b.id, toLex (b.x, b.y))) := by
  simp only [rankLe, Prod.Lex.le_iff]

theorem rankLe_total (a b : Point) : rankLe a b ∨ rankLe b a := by
  rw [rankLe_iff_key, rankLe_iff_key]
  exact le_total _ _

theorem rankLe_trans {a b c : Point} (h1 : rankLe a b) (h2 : rankLe b c) : rankLe a c := by
  rw [rankLe_iff_key] at *
  exact le_trans h1 h2

theorem rankLe_antisymm {a b : Point} (h1 : rankLe a b) (h2 : rankLe b a) : a = b := by
  rw [rankLe_iff_key] at *
  have h := le_antisymm h1 h2
  cases a; cases b
  simp only [EmbeddingLike.apply_eq_iff_eq, Prod.mk.injEq] at h
  obtain ⟨e1, e2, e3, e4⟩ := h
  subst e1 e2 e3 e4
  rfl

instance : IsTotal Point rankLe := ⟨rankLe_total⟩

instance : IsTrans Point rankLe := ⟨fun _ _ _ => rankLe_trans⟩

instance : IsAntisymm Point rankLe := ⟨fun _ _ => rankLe_antisymm⟩

theorem rankLe_iff_lt_or_eq (a b : Point) : rankLe a b ↔ rankLt a b ∨ a = b := by
  constructor
  · intro h
    by_cases hab : a = b
    · exact Or.inr hab
    · left
      unfold rankLe at h
      unfold rankLt
      rcases h with h | ⟨hr, h | ⟨hi, h | ⟨hx, hy⟩⟩⟩
      · exact Or.inl h
      · exact Or.inr ⟨hr, Or.inl h⟩
      · exact Or.inr ⟨hr, Or.inr ⟨hi, Or.inl h⟩⟩
      · refine Or.inr ⟨hr, Or.inr ⟨hi, Or.inr ⟨hx, lt_of_le_of_ne hy ?_⟩⟩⟩
        intro hy'
        apply hab
        cases a; cases b
        simp only at hr hi hx hy'
        subst hr hi hx hy'
        rfl
  · rintro (h | h)
    · unfold rankLt at h
      unfold rankLe
      rcases h with h | ⟨hr, h | ⟨hi, h | ⟨hx, hy⟩⟩⟩
      · exact Or.inl h
      · exact Or.inr ⟨hr, Or.inl h⟩
      · exact Or.inr ⟨hr, Or.inr ⟨hi, Or.inl h⟩⟩
      · exact Or.inr ⟨hr, Or.inr ⟨hi, Or.inr ⟨hx, hy.le⟩⟩⟩
    · subst h
      unfold rankLe
      exact Or.inr ⟨rfl, Or.inr ⟨rfl, Or.inr ⟨rfl, le_refl _⟩⟩⟩

theorem rankComp_self (a : Point) : rankComp a a = -1 := by
  simp [rankComp]

/-- When the difference of the two ranks fits in 32 bits, `qsort` is told to
keep `a` before `b` exactly when `a` is below or equal to `b` in rank order. -/
theorem rankComp_le_zero_iff (a b : Point)
    (h1 : -2147483648 ≤ a.rank - b.rank) (h2 : a.rank - b.rank ≤ 2147483647) :
    rankComp a b ≤ 0 ↔ rankLe a b := by
  have hsign := rankComp_sign_of_small_difference a b h1 h2
  by_cases hab : a = b
  · subst hab
    rw [rankComp_self]
    exact ⟨fun _ => (rankLe_iff_lt_or_eq _ _).mpr (Or.inr rfl), fun _ => by decide⟩
  · constructor
    · intro hc
      rcases rankLe_total a b with h | h
      · exact h
      · rcases (rankLe_iff_lt_or_eq _ _).mp h with h' | h'
        · have := hsign.2 h'
          omega
        · exact absurd h'.symm hab
    · intro h
      rcases (rankLe_iff_lt_or_eq _ _).mp h with h' | h'
      · exact (hsign.1 h').le
      · exact absurd h' hab

theorem orderedInsert_congr {α : Type} (r s : α → α → Prop) [DecidableRel r] [DecidableRel s]
    (a : α) : ∀ l : List α, (∀ b ∈ l, r a b ↔ s a b) →
      l.orderedInsert r a = l.orderedInsert s a
  | [], _ => rfl
  | b :: l, h => by
    have hb : r a b ↔ s a b := h b (List.mem_cons_self b l)
    have ih := orderedInsert_congr r s a l (fun c hc => h c (List.mem_cons_of_mem b hc))
    simp only [List.orderedInsert, hb, ih]

theorem insertionSort_congr {α : Type} (r s : α → α → Prop) [DecidableRel r] [DecidableRel s] :
    ∀ l : List α, (∀ a ∈ l, ∀ b ∈ l, r a b ↔ s a b) →
      l.insertionSort r = l.insertionSort s
  | [], _ => rfl
  | a :: l, h => by
    have ih := insertionSort_congr r s l
      (fun c hc d hd => h c (List.mem_cons_of_mem a hc) d (List.mem_cons_of_mem a hd))
    simp only [List.insertionSort, ih]
    apply orderedInsert_congr
    intro b hb
    exact h a (List.mem_cons_self a l) b
      (List.mem_cons_of_mem a ((List.mem_insertionSort s).mp hb))

/-- With a small rank spread, sorting with `rankComp` sorts by rank order. -/
theorem qsort_rankComp_eq (points : List Point) (h : SmallRankSpread points) :
    qsort rankComp points = points.insertionSort rankLe := by
  unfold qsort
  apply insertionSort_congr
  intro a ha b hb
  exact rankComp_le_zero_iff a b (h a ha b hb).1 (h a ha b hb).2

/-- With a small rank spread the Point Store that `create` builds is sorted
under rank order. -/
theorem create_store_sorted_of_small_spread (LINEAR : Bool) (points : List Point)
    (h : SmallRankSpread points) :
    (create LINEAR points).allPoints.Pairwise rankLe := by
  show (qsort rankComp points).Pairwise rankLe
  rw [qsort_rankComp_eq points h]
  exact List.sorted_insertionSort rankLe points

/-- With a small rank spread and fewer than `2^31` points, the Linear build
answers the query as specified: `search(create(pts), rect, count)` returns
`min(count, m)` and leaves in the buffer the first `count` of the points of
`pts` inside the rectangle, sorted by rank order. -/
theorem create_search_eq_spec_of_small_spread (points : List Point) (rect : Rect) (count : Int)
    (out_points : Nat → Point) (h : SmallRankSpread points)
    (hlen : points.length < 2147483648) :
    ∃ (n : Int) (m : Mem),
      searchLinear (create true points) rect count out_points = some (n, m) ∧
      written m.out n = specSearch points rect count ∧
      n = ((specSearch points rect count).length : Int) := by
  have hwf : (create true points).WF := by
    show wrapI32 (points.length : Int) = ((qsort rankComp points).length : Int)
    rw [wrapI32_of_inRange _ (by omega) (by omega)]
    unfold qsort
    rw [List.length_insertionSort]
  have hstore : (create true points).allPoints = points.insertionSort rankLe :=
    qsort_rankComp_eq points h
  have hfilter : inside rect (points.insertionSort rankLe) =
      (inside rect points).insertionSort rankLe := by
    apply List.eq_of_perm_of_sorted (r := rankLe)
    · exact ((List.perm_insertionSort rankLe points).filter _).trans
        (List.perm_insertionSort rankLe (inside rect points)).symm
    · exact List.Sorted.filter _ (List.sorted_insertionSort rankLe points)
    · exact List.sorted_insertionSort rankLe _
  refine ⟨_, _, searchLinear_eq _ rect count out_points hwf, ?_, ?_⟩
  · simp only []
    rw [written_writeList, hstore, hfilter]
    rfl
  · rw [hstore, hfilter]
    rfl

/-! ## Claims on `create` -/

/-- Whatever sorting routine stands for `qsort`: an arrangement of `farPts`
whose neighbours `a`, `b` all have `rankComp a b <= 0` is `farPts` itself,
the point of rank 1 before the point of the least rank. -/
theorem farPts_sorted_by_rankComp (s : List Point) (hperm : s.Perm farPts)
    (hchain : s.Chain' (fun a b => rankComp a b ≤ 0)) : s = farPts := by
  have hlen : s.length = 2 := hperm.length_eq
  match s, hlen with
  | [u, v], _ =>
    have hu : u ∈ farPts := hperm.subset (by simp)
    have hv : v ∈ farPts := hperm.subset (by simp)
    have hnd : [u, v].Nodup := hperm.nodup_iff.mpr (by decide)
    have huv : u ≠ v := by
      intro h
      simp [h] at hnd
    have hc : rankComp u v ≤ 0 := by simpa using hchain
    simp only [farPts, List.mem_cons, List.mem_singleton, List.not_mem_nil, or_false] at hu hv
    rcases hu with hu | hu <;> rcases hv with hv | hv
    · exact absurd (hu.trans hv.symm) huv
    · rw [hu, hv]; rfl
    · rw [hu, hv] at hc
      exact absurd hc (by decide)
    · exact absurd (hu.trans hv.symm) huv

/-- C7: for the input `farPts` (ranks 1 and -2147483648, both 32-bit values),
`create` leaves the point of rank 1 in slot 0 and the point of rank
-2147483648 in slot 1, in either build: the store is not sorted under rank
order, since the second point strictly precedes the first. -/
theorem create_store_unsorted_on_far_ranks :
    (∀ p ∈ farPts, p.InRange) ∧
    (create true farPts).allPoints = [rankOne, rankLeast] ∧
    (create false farPts).allPoints = [rankOne, rankLeast] ∧
    rankLt rankLeast rankOne ∧ ¬ rankLe rankOne rankLeast ∧
    ¬ (create true farPts).allPoints.Pairwise rankLe := by
  decide

/-- C8: for every input of `n < 2^31` points (a range of 13-byte points in a
32-bit address space is shorter), `create`, in either build, returns a
well-formed handle with `numPoints = n` whose store is a permutation of the
input: every point occurs in the store as often as in the input. For `n = 0`
the store is empty and every search, Linear or Dual-axis, returns 0 and leaves
the buffer as it was. -/
theorem create_store_perm (LINEAR : Bool) (points : List Point)
    (hlen : points.length < 2147483648) :
    (create LINEAR points).numPoints = (points.length : Int) ∧
    (create LINEAR points).allPoints.length = points.length ∧
    (create LINEAR points).WF ∧
    (create LINEAR points).allPoints.Perm points ∧
    (∀ p : Point, (create LINEAR points).allPoints.count p = points.count p) ∧
    (∀ p : Point, p ∈ (create LINEAR points).allPoints ↔ p ∈ points) ∧
    (points = [] → (create LINEAR points).allPoints = [] ∧
      ∀ (SEARCH_LINEAR : Bool) (pastEnd : Option Nat) (rect : Rect) (count : Int)
        (out_points : Nat → Point),
        search SEARCH_LINEAR pastEnd (create LINEAR points) rect count out_points =
          some (0, { obj := create LINEAR points, out := out_points })) := by
  have hperm : (create LINEAR points).allPoints.Perm points := by
    simp only [create, qsort]
    exact List.perm_insertionSort _ _
  have hnum : (create LINEAR points).numPoints = (points.length : Int) := by
    simp only [create]
    exact wrapI32_of_inRange _ (by omega) (by omega)
  refine ⟨hnum, hperm.length_eq, ?_, hperm, fun p => hperm.count_eq p,
    fun p => hperm.mem_iff, ?_⟩
  · show (create LINEAR points).numPoints = ((create LINEAR points).allPoints.length : Int)
    rw [hnum, hperm.length_eq]
  · intro hnil
    refine ⟨?_, ?_⟩
    · have hl : (create LINEAR points).allPoints.length = 0 := by
        rw [hperm.length_eq, hnil, List.length_nil]
      exact List.length_eq_zero.mp hl
    · intro sl pastEnd rect count out_points
      have h0 : (create LINEAR points).numPoints ≤ 0 := by
        rw [hnum, hnil]; simp
      cases sl <;> simp [search, searchLinear, searchDual, h0]

/-- The store that `create` builds from `linePts`, a permutation of it. -/
theorem create_store_perm_witness :
    linePts.length < 2147483648 ∧
    (create false linePts).numPoints = (linePts.length : Int) ∧
    (create false linePts).allPoints.length = linePts.length ∧
    (create false linePts).WF ∧
    (create false linePts).allPoints.Perm linePts ∧
    (∀ p : Point, (create false linePts).allPoints.count p = linePts.count p) ∧
    (∀ p : Point, p ∈ (create false linePts).allPoints ↔ p ∈ linePts) ∧
    (linePts = [] → (create false linePts).allPoints = [] ∧
      ∀ (SEARCH_LINEAR : Bool) (pastEnd : Option Nat) (rect : Rect) (count : Int)
        (out_points : Nat → Point),
        search SEARCH_LINEAR pastEnd (create false linePts) rect count out_points =
          some (0, { obj := create false linePts, out := out_points })) :=
  ⟨by simp [linePts], create_store_perm false linePts (by simp [linePts])⟩

/-! ## End to end -/

/-- Scenario B: five points on a line with ranks 5, 3, 1, 4, 2, a rectangle
covering all, `count = 3`: the Linear build returns the points of rank 1, 2, 3
in that order, as specified. -/
theorem create_search_scenario_B :
    resultOf (searchLinear (create true linePts) lineRect 3 zeroBuf) =
      some (3, [⟨2, 1, 2, 2⟩, ⟨4, 2, 4, 4⟩, ⟨1, 3, 1, 1⟩]) ∧
    specSearch linePts lineRect 3 = [⟨2, 1, 2, 2⟩, ⟨4, 2, 4, 4⟩, ⟨1, 3, 1, 1⟩] := by
  decide

/-- C1: for the input `farPts` (ranks 1 and -2147483648), a rectangle that
holds both points and `count = 1`, the Linear build returns the point of rank 1,
while the lowest-rank point inside the rectangle, the one the specified query
gives, is the point of rank -2147483648. -/
theorem create_search_far_ranks :
    (∀ p ∈ farPts, p.InRange) ∧ (0 : Int) ≤ 1 ∧
    resultOf (searchLinear (create true farPts) lineRect 1 zeroBuf) = some (1, [rankOne]) ∧
    specSearch farPts lineRect 1 = [rankLeast] ∧
    rankOne ≠ rankLeast := by
  decide

/-- C3: for the dataset `diagPts` (points (0,0), (1,1), (2,2)), the rectangle
`[-1, 0] x [-1, 0]` (`lx <= hx`, `ly <= hy`) and `count = 1`, the Linear search
returns one result, the point (0,0), on the handle of either build, while the
Dual-axis search on the handle built by `create` returns no result, whatever
lies past the working array: `safeSearch` answers `begin` for the upper bound
`hx = 0`, the least x, so the x sub-range is empty. -/
theorem linear_dual_disagree_on_corner :
    cornerRect.lx ≤ cornerRect.hx ∧ cornerRect.ly ≤ cornerRect.hy ∧ (0 : Int) ≤ 1 ∧
    resultOf (searchLinear (create true diagPts) cornerRect 1 zeroBuf) =
      some (1, [⟨0, 0, 0, 0⟩]) ∧
    resultOf (searchLinear (create false diagPts) cornerRect 1 zeroBuf) =
      some (1, [⟨0, 0, 0, 0⟩]) ∧
    safeSearch (create false diagPts).allPoints (create false diagPts).xSorted X_AXIS
      cornerRect.hx false 0 3 = some 0 ∧
    resultOf (searchDual none (create false diagPts) cornerRect 1 zeroBuf) = some (0, []) ∧
    resultOf (searchDual (some 0) (create false diagPts) cornerRect 1 zeroBuf) = some (0, []) := by
  decide

/-! ## Boundary search on concrete ranges -/

/-- C11: on the axis index of `diagPts` (x = 0, 1, 2, sorted) `safeSearch` with
the upper bound `v = 0` (`low = false`) returns 0, while one past the last index
with coordinate `<= 0` is 1; with the lower bound `v = 2` (`low = true`) it
returns 3, while the first index with coordinate `>= 2` is 2; so for
`lx = hx = 0` and for `lx = hx = 2` the results delimit no element although one
element has its coordinate in `[lx, hx]`. On the axis index of `probePts`
(x = 0, 2, 4, 6, 8) the lower bound 1 gives 0, not 1, and the upper bound 7
gives 5, not 4. -/
theorem safeSearch_contract_fails :
    axisValues (create false diagPts).allPoints X_AXIS (create false diagPts).xSorted =
      some [0, 1, 2] ∧
    safeSearch (create false diagPts).allPoints (create false diagPts).xSorted X_AXIS
      0 false 0 3 = some 0 ∧
    specHigh [0, 1, 2] 0 = 1 ∧
    safeSearch (create false diagPts).allPoints (create false diagPts).xSorted X_AXIS
      2 true 0 3 = some 3 ∧
    specLow [0, 1, 2] 2 = 2 ∧
    safeSearch (create false diagPts).allPoints (create false diagPts).xSorted X_AXIS
      0 true 0 3 = some 0 ∧
    safeSearch (create false diagPts).allPoints (create false diagPts).xSorted X_AXIS
      2 false 0 3 = some 3 ∧
    axisValues (create false probePts).allPoints X_AXIS (create false probePts).xSorted =
      some [0, 2, 4, 6, 8] ∧
    safeSearch (create false probePts).allPoints (create false probePts).xSorted X_AXIS
      1 true 0 5 = some 0 ∧
    specLow [0, 2, 4, 6, 8] 1 = 1 ∧
    safeSearch (create false probePts).allPoints (create false probePts).xSorted X_AXIS
      7 false 0 5 = some 5 ∧
    specHigh [0, 2, 4, 6, 8] 7 = 4 := by
  decide

/-- C12: with the bound equal to the value of a run of equal coordinates,
`safeSearch` misses the ends of the run. On x = 0, 1, 1, 2 (run `[1, 3)` across
the midpoint 2) `low = true` returns 2, not 1. On x = 0, 0, 1 (run `[0, 2)` at
the start) `low = false` returns 0, not 2. On x = 0, 1, 1 (run `[1, 3)` at the
end) `low = true` returns 3, not 1. -/
theorem safeSearch_duplicate_run_fails :
    axisValues (create false dupPts).allPoints X_AXIS (create false dupPts).xSorted =
      some [0, 1, 1, 2] ∧
    safeSearch (create false dupPts).allPoints (create false dupPts).xSorted X_AXIS
      1 true 0 4 = some 2 ∧
    specLow [0, 1, 1, 2] 1 = 1 ∧
    safeSearch (create false dupPts).allPoints (create false dupPts).xSorted X_AXIS
      1 false 0 4 = some 3 ∧
    specHigh [0, 1, 1, 2] 1 = 3 ∧
    axisValues (create false startRunPts).allPoints X_AXIS (create false startRunPts).xSorted =
      some [0, 0, 1] ∧
    safeSearch (create false startRunPts).allPoints (create false startRunPts).xSorted X_AXIS
      0 false 0 3 = some 0 ∧
    specHigh [0, 0, 1] 0 = 2 ∧
    axisValues (create false endRunPts).allPoints X_AXIS (create false endRunPts).xSorted =
      some [0, 1, 1] ∧
    safeSearch (create false endRunPts).allPoints (create false endRunPts).xSorted X_AXIS
      1 true 0 3 = some 3 ∧
    specLow [0, 1, 1] 1 = 1 := by
  decide

/-- C13: for the dataset `probePts` and the rectangle `[1, 7] x [0, 16]`
(`lx <= hx`, `ly <= hy`) the x sub-range is the whole axis index, positions
`[0, 5)`: it holds the references to the points with x = 0 and x = 8, outside
`[1, 7]`. The Dual-axis search with `count = 5` returns all five points,
two of them outside the rectangle; the Linear search returns the three
inside. -/
theorem dual_axis_returns_points_outside :
    probeRect.lx ≤ probeRect.hx ∧ probeRect.ly ≤ probeRect.hy ∧
    (create false probePts).allPoints = probePts ∧
    safeSearch (create false probePts).allPoints (create false probePts).xSorted X_AXIS
      probeRect.lx true 0 5 = some 0 ∧
    safeSearch (create false probePts).allPoints (create false probePts).xSorted X_AXIS
      probeRect.hx false 0 5 = some 5 ∧
    copyRange (create false probePts).xSorted 0 5 = some [0, 1, 2, 3, 4] ∧
    resultOf (searchDual none (create false probePts) probeRect 5 zeroBuf) =
      some (5, probePts) ∧
    POINT_IN_RECT ⟨0, 0, 0, 0⟩ probeRect = false ∧
    POINT_IN_RECT ⟨4, 4, 8, 4⟩ probeRect = false ∧
    resultOf (searchLinear (create false probePts) probeRect 5 zeroBuf) =
      some (3, [⟨1, 1, 2, 10⟩, ⟨2, 2, 4, 2⟩, ⟨3, 3, 6, 14⟩]) := by
  decide

/-! ## The scan reads one slot past the working array -/

/-- C15: there are a dataset, a rectangle and a count `> 0` (`singlePts`,
`belowRect`, 1) for which the x sub-range holds one reference, the y sub-range
none, so `numElements = 1`, and the scan loop, at `i = 0 = numElements - 1`,
reads `mergedResults[1]`: when that slot cannot be read the search has no
result, and when it can the result depends on what it holds (the value 0, equal
to the last reference, makes the search return the point, which is outside the
rectangle; any other value makes it return nothing). -/
theorem scan_reads_past_end :
    ∃ (pts : List Point) (rect : Rect) (count : Int), 0 < count ∧
      (∀ p ∈ pts, p.InRange) ∧ rect.lx ≤ rect.hx ∧ rect.ly ≤ rect.hy ∧
      safeSearch (create false pts).allPoints (create false pts).xSorted X_AXIS
        rect.lx true 0 (create false pts).numPoints.toNat = some 0 ∧
      safeSearch (create false pts).allPoints (create false pts).xSorted X_AXIS
        rect.hx false 0 (create false pts).numPoints.toNat = some 1 ∧
      safeSearch (create false pts).allPoints (create false pts).ySorted Y_AXIS
        rect.ly true 0 (create false pts).numPoints.toNat = some 0 ∧
      safeSearch (create false pts).allPoints (create false pts).ySorted Y_AXIS
        rect.hy false 0 (create false pts).numPoints.toNat = some 0 ∧
      copyRange (create false pts).xSorted 0 1 = some [0] ∧
      copyRange (create false pts).ySorted 0 0 = some [] ∧
      qsort pointerComp ([0] ++ []) = [0] ∧
      readMerged [0] none 1 = none ∧
      resultOf (searchDual none (create false pts) rect count zeroBuf) = none ∧
      resultOf (searchDual (some 0) (create false pts) rect count zeroBuf) =
        some (1, [⟨0, 0, 0, 0⟩]) ∧
      resultOf (searchDual (some 1) (create false pts) rect count zeroBuf) = some (0, []) :=
  ⟨singlePts, belowRect, 1, by decide⟩

/-! ## `rankComp` as a three-way comparator -/

/-- C18: `rankComp a a` is `-1`, not 0, for the point `rankOne` (for every
point, by `rankComp_self`), so `rankComp a b = 0` fails for equal points and the
signs of `rankComp a b` and `rankComp b a` are equal, both `-1`. For the points
of rank -2147483648 and 0 both orders give -2147483648: the signs are again
both `-1`. -/
theorem rankComp_not_three_way :
    rankOne.InRange ∧ rankComp rankOne rankOne = -1 ∧ rankComp rankOne rankOne ≠ 0 ∧
    sgn (rankComp rankOne rankOne) ≠ -sgn (rankComp rankOne rankOne) ∧
    rankLeast.InRange ∧ (⟨0, 0, 0, 0⟩ : Point).InRange ∧
    rankComp rankLeast ⟨0, 0, 0, 0⟩ = -2147483648 ∧
    rankComp ⟨0, 0, 0, 0⟩ rankLeast = -2147483648 ∧
    sgn (rankComp rankLeast ⟨0, 0, 0, 0⟩) ≠ -sgn (rankComp ⟨0, 0, 0, 0⟩ rankLeast) := by
  decide

/-! ## Termination of `binarySearch` -/

theorem binarySearch_eq_WF (store : List Point) (idx : List Nat) (axis : Int) (number : ℚ)
    (low : Bool) : ∀ (fuel begin end_ : Nat), begin < end_ → end_ - begin ≤ fuel →
      binarySearch store idx axis number low fuel begin end_ =
        binarySearchWF store idx axis number low begin end_ := by
  intro fuel
  induction fuel with
  | zero => intro b e h1 h2; omega
  | succ fuel ih =>
    intro b e h1 h2
    rw [binarySearch, binarySearchWF]
    cases hb : GET_NUMBER store idx axis b with
    | none => rfl
    | some bn =>
      simp only []
      by_cases he0 : e = 0
      · simp only [he0, if_true]
      · simp only [he0, if_false]
        cases hen : GET_NUMBER store idx axis (e - 1) with
        | none => rfl
        | some en =>
          simp only []
          by_cases hlen : (e : Int) - (b : Int) ≤ 2
          · simp only [hlen, if_true, dite_true]
          · simp only [hlen, if_false, dite_false]
            have hb1 : b < b + (e - b) / 2 := by omega
            have hb2 : b + (e - b) / 2 < e := by omega
            rw [ih (b + (e - b) / 2) e hb2 (by omega), ih b (b + (e - b) / 2) hb1 (by omega)]

/-- One call of `binarySearch`: either it does not recurse, and its result is
the same whatever fuel is left, or the window has more than two elements and
the result is that of the call on `[halfWay, end)` or on `[begin, halfWay)`. -/
theorem binarySearch_step (store : List Point) (idx : List Nat) (axis : Int) (number : ℚ)
    (low : Bool) (fuel begin end_ : Nat) :
    (∀ fuel₂ : Nat, binarySearch store idx axis number low (fuel + 1) begin end_ =
        binarySearch store idx axis number low (fuel₂ + 1) begin end_) ∨
    (2 < (end_ : Int) - (begin : Int) ∧
      (binarySearch store idx axis number low (fuel + 1) begin end_ =
          binarySearch store idx axis number low fuel (begin + (end_ - begin) / 2) end_ ∨
        binarySearch store idx axis number low (fuel + 1) begin end_ =
          binarySearch store idx axis number low fuel begin (begin + (end_ - begin) / 2))) := by
  cases hb : GET_NUMBER store idx axis begin with
  | none => left; intro f; rw [binarySearch, binarySearch]; simp only [hb]
  | some bn =>
    by_cases he0 : end_ = 0
    · left; intro f; rw [binarySearch, binarySearch]; simp only [hb, he0, if_true]
    · cases hen : GET_NUMBER store idx axis (end_ - 1) with
      | none => left; intro f; rw [binarySearch, binarySearch]; simp only [hb, he0, if_false, hen]
      | some en =>
        by_cases h1 : number < bn
        · left; intro f; rw [binarySearch, binarySearch]
          simp only [hb, he0, if_false, hen, h1, if_true]
        · by_cases h2 : number > en
          · left; intro f; rw [binarySearch, binarySearch]
            simp only [hb, he0, if_false, hen, h1, h2, if_true]
          · by_cases h3 : (end_ : Int) - (begin : Int) ≤ 2
            · left; intro f; rw [binarySearch, binarySearch]
              simp only [hb, he0, if_false, hen, h1, h2, h3, if_true]
            · by_cases h4 : number = bn
              · left; intro f; rw [binarySearch, binarySearch]
                simp only [hb, he0, if_false, hen, h1, h2, h3, h4, if_true]
              · by_cases h5 : number = en
                · left; intro f; rw [binarySearch, binarySearch]
                  simp only [hb, he0, if_false, hen, h1, h2, h3, h4, h5, if_true]
                · cases hh : GET_NUMBER store idx axis (begin + (end_ - begin) / 2) with
                  | none =>
                    left; intro f; rw [binarySearch, binarySearch]
                    simp only [hb, he0, if_false, hen, h1, h2, h3, h4, h5, hh]
                  | some hn =>
                    right
                    refine ⟨by omega, ?_⟩
                    rw [binarySearch]
                    simp only [hb, he0, if_false, hen, h1, h2, h3, h4, h5, hh]
                    by_cases h6 : hn ≤ number
                    · left; simp only [h6, if_true]
                    · right; simp only [h6, if_false]

/-- C19: `binarySearch` terminates on every non-empty window `[begin, end)`.
A call either does not recurse or has a window of more than two elements and
passes on `[halfWay, end)` or `[begin, halfWay)`, `halfWay = begin +
(end - begin) / 2`; such a window is non-empty and strictly shorter; and with
fuel at least the window length the fuelled function computes what the
function defined by recursion on `end - begin` computes, so it never stops for
want of fuel. -/
theorem binarySearch_terminates (store : List Point) (idx : List Nat) (axis : Int) (number : ℚ)
    (low : Bool) (begin end_ : Nat) (hwin : begin < end_) :
    (∀ fuel : Nat,
      (∀ fuel₂ : Nat, binarySearch store idx axis number low (fuel + 1) begin end_ =
          binarySearch store idx axis number low (fuel₂ + 1) begin end_) ∨
      (2 < (end_ : Int) - (begin : Int) ∧
        (binarySearch store idx axis number low (fuel + 1) begin end_ =
            binarySearch store idx axis number low fuel (begin + (end_ - begin) / 2) end_ ∨
          binarySearch store idx axis number low (fuel + 1) begin end_ =
            binarySearch store idx axis number low fuel begin (begin + (end_ - begin) / 2)))) ∧
    (2 < (end_ : Int) - (begin : Int) →
      begin < begin + (end_ - begin) / 2 ∧ begin + (end_ - begin) / 2 < end_ ∧
      0 < end_ - (begin + (end_ - begin) / 2) ∧
      end_ - (begin + (end_ - begin) / 2) < end_ - begin ∧
      0 < (begin + (end_ - begin) / 2) - begin ∧
      (begin + (end_ - begin) / 2) - begin < end_ - begin) ∧
    (∀ fuel : Nat, end_ - begin ≤ fuel →
      binarySearch store idx axis number low fuel begin end_ =
        binarySearchWF store idx axis number low begin end_) := by
  refine ⟨fun fuel => binarySearch_step store idx axis number low fuel begin end_, ?_, ?_⟩
  · intro h
    omega
  · intro fuel hfuel
    exact binarySearch_eq_WF store idx axis number low fuel begin end_ hwin hfuel

/-- The window `[0, 5)` of the x index of `probePts`, bound 1. -/
theorem binarySearch_terminates_witness :
    (0 : Nat) < 5 ∧
    (∀ fuel : Nat,
      (∀ fuel₂ : Nat,
        binarySearch (create false probePts).allPoints (create false probePts).xSorted X_AXIS 1
            true (fuel + 1) 0 5 =
          binarySearch (create false probePts).allPoints (create false probePts).xSorted X_AXIS 1
            true (fuel₂ + 1) 0 5) ∨
      (2 < ((5 : Nat) : Int) - ((0 : Nat) : Int) ∧
        (binarySearch (create false probePts).allPoints (create false probePts).xSorted X_AXIS 1
              true (fuel + 1) 0 5 =
            binarySearch (create false probePts).allPoints (create false probePts).xSorted X_AXIS 1
              true fuel (0 + (5 - 0) / 2) 5 ∨
          binarySearch (create false probePts).allPoints (create false probePts).xSorted X_AXIS 1
              true (fuel + 1) 0 5 =
            binarySearch (create false probePts).allPoints (create false probePts).xSorted X_AXIS 1
              true fuel 0 (0 + (5 - 0) / 2)))) ∧
    (2 < ((5 : Nat) : Int) - ((0 : Nat) : Int) →
      0 < 0 + (5 - 0) / 2 ∧ 0 + (5 - 0) / 2 < 5 ∧
      0 < 5 - (0 + (5 - 0) / 2) ∧
      5 - (0 + (5 - 0) / 2) < 5 - 0 ∧
      0 < (0 + (5 - 0) / 2) - 0 ∧
      (0 + (5 - 0) / 2) - 0 < 5 - 0) ∧
    (∀ fuel : Nat, 5 - 0 ≤ fuel →
      binarySearch (create false probePts).allPoints (create false probePts).xSorted X_AXIS 1
          true fuel 0 5 =
        binarySearchWF (create false probePts).allPoints (create false probePts).xSorted X_AXIS 1
          true 0 5) :=
  ⟨by decide, binarySearch_terminates (create false probePts).allPoints
    (create false probePts).xSorted X_AXIS 1 true 0 5 (by decide)⟩

/-! ## Boundary search on a sorted range -/

theorem GET_NUMBER_of_axisValues (store : List Point) (axis : Int) :
    ∀ (idx : List Nat) (cs : List ℚ), axisValues store axis idx = some cs →
      cs.length = idx.length ∧ ∀ k : Nat, GET_NUMBER store idx axis k = cs[k]? := by
  intro idx
  induction idx with
  | nil =>
    intro cs h
    simp only [axisValues, Option.some.injEq] at h
    subst h
    exact ⟨rfl, fun k => by simp [GET_NUMBER]⟩
  | cons i rest ih =>
    intro cs h
    rw [axisValues] at h
    cases hp : store[i]? with
    | none => simp [hp] at h
    | some p =>
      cases hl : axisValues store axis rest with
      | none => simp [hp, hl] at h
      | some l =>
        simp only [hp, hl, Option.some.injEq] at h
        subst h
        obtain ⟨hlen, hget⟩ := ih l hl
        refine ⟨by simp [hlen], ?_⟩
        intro k
        cases k with
        | zero => simp [GET_NUMBER, hp]
        | succ k =>
          have := hget k
          simp only [GET_NUMBER, List.getElem?_cons_succ] at this ⊢
          exact this

theorem extendDown_some (store : List Point) (idx : List Nat) (axis : Int) (cs : List ℚ)
    (hget : ∀ k : Nat, GET_NUMBER store idx axis k = cs[k]?) (v : ℚ)
    (hfirst : ∀ a : ℚ, cs[0]? = some a → a ≠ v) :
    ∀ p : Nat, 1 ≤ p → p ≤ cs.length →
      ∃ k : Nat, extendDown store idx axis v p = some k ∧ 1 ≤ k ∧ k ≤ p := by
  intro p
  induction p with
  | zero => intro h; omega
  | succ p ih =>
    intro _ hp
    have hlt : p < cs.length := by omega
    rw [extendDown, hget p, List.getElem?_eq_getElem hlt]
    simp only []
    by_cases hv : cs[p] = v
    · rw [if_pos hv]
      have hp0 : p ≠ 0 := by
        intro h0
        subst h0
        exact hfirst cs[0] (List.getElem?_eq_getElem hlt) hv
      obtain ⟨k, hk, h1, h2⟩ := ih (by omega) (by omega)
      exact ⟨k, hk, h1, by omega⟩
    · rw [if_neg hv]
      exact ⟨p + 1, rfl, by omega, le_refl _⟩

theorem extendUp_some (store : List Point) (idx : List Nat) (axis : Int) (cs : List ℚ)
    (hget : ∀ k : Nat, GET_NUMBER store idx axis k = cs[k]?) (v : ℚ)
    (hlast : ∀ a : ℚ, cs[cs.length - 1]? = some a → a ≠ v) :
    ∀ fuel p : Nat, p < cs.length → cs.length - p ≤ fuel →
      ∃ k : Nat, extendUp store idx axis v fuel p = some k ∧ p ≤ k ∧ k < cs.length := by
  intro fuel
  induction fuel with
  | zero => intro p h1 h2; omega
  | succ fuel ih =>
    intro p hlt hfuel
    rw [extendUp, hget p, List.getElem?_eq_getElem hlt]
    simp only []
    by_cases hv : cs[p] = v
    · rw [if_pos hv]
      have hp1 : p ≠ cs.length - 1 := by
        intro h1
        have hlt' : cs.length - 1 < cs.length := by omega
        apply hlast cs[cs.length - 1] (List.getElem?_eq_getElem hlt')
        rw [← hv]
        congr 1
        exact h1.symm
      obtain ⟨k, hk, h1, h2⟩ := ih (p + 1) (by omega) (by omega)
      exact ⟨k, hk, by omega, h2⟩
    · rw [if_neg hv]
      exact ⟨p, rfl, le_refl _, hlt⟩

theorem binarySearch_succ (store : List Point) (idx : List Nat) (axis : Int) (number : ℚ)
    (low : Bool) (fuel begin end_ : Nat) (bn en : ℚ)
    (hb : GET_NUMBER store idx axis begin = some bn) (he0 : end_ ≠ 0)
    (hen : GET_NUMBER store idx axis (end_ - 1) = some en) :
    binarySearch store idx axis number low (fuel + 1) begin end_ =
      if number < bn then some begin
      else if number > en then some end_
      else if (end_ : Int) - (begin : Int) ≤ 2 then
        if low then (if number < bn then some (end_ - 1) else some begin)
        else (if number > bn then some end_ else some (begin + 1))
      else if number = bn then
        if low then extendDown store idx axis number begin
        else extendUp store idx axis number (idx.length + 1) begin
      else if number = en then
        if low then extendDown store idx axis number end_
        else extendUp store idx axis number (idx.length + 1) end_
      else
        match GET_NUMBER store idx axis (begin + (end_ - begin) / 2) with
        | none => none
        | some halfWayNumber =>
          if halfWayNumber ≤ number then
            binarySearch store idx axis number low fuel (begin + (end_ - begin) / 2) end_
          else
            binarySearch store idx axis number low fuel begin (begin + (end_ - begin) / 2) := by
  rw [binarySearch]
  simp only [hb, he0, if_false, hen]

theorem sorted_getElem_le (cs : List ℚ) (hs : cs.Pairwise (fun a b => a ≤ b)) :
    ∀ (i j : Nat) (hi : i < cs.length) (hj : j < cs.length), i ≤ j → cs[i] ≤ cs[j] := by
  intro i j hi hj hij
  rcases Nat.eq_or_lt_of_le hij with h | h
  · subst h; exact le_refl _
  · exact (List.pairwise_iff_getElem.mp hs) i j hi hj h

/-- The two boundary searches of one bound on a window of a sorted range, under
the guard of `safeSearch` (the first and the last coordinate differ from the
bound): both return, the lower result is at most the upper one, every
coordinate before the lower result is `<= v` and every coordinate from the upper
result on is `>= v`. -/
theorem binarySearch_bounds (store : List Point) (idx : List Nat) (axis : Int) (cs : List ℚ)
    (hget : ∀ k : Nat, GET_NUMBER store idx axis k = cs[k]?) (hlen : cs.length = idx.length)
    (hs : ∀ (i j : Nat) (hi : i < cs.length) (hj : j < cs.length), i ≤ j → cs[i] ≤ cs[j])
    (v : ℚ) (hfirst : ∀ a : ℚ, cs[0]? = some a → a ≠ v)
    (hlast : ∀ a : ℚ, cs[cs.length - 1]? = some a → a ≠ v) :
    ∀ fuel b e : Nat, b < e → e ≤ cs.length → e - b ≤ fuel →
      (∀ (k : Nat) (hk : k < cs.length), k < b → cs[k] ≤ v) →
      (∀ (k : Nat) (hk : k < cs.length), e ≤ k → v ≤ cs[k]) →
      ∃ L H : Nat,
        binarySearch store idx axis v true fuel b e = some L ∧
        binarySearch store idx axis v false fuel b e = some H ∧
        L ≤ H ∧ H ≤ cs.length ∧
        (∀ (k : Nat) (hk : k < cs.length), k < L → cs[k] ≤ v) ∧
        (∀ (k : Nat) (hk : k < cs.length), H ≤ k → v ≤ cs[k]) := by
  intro fuel
  induction fuel with
  | zero => intro b e h1 _ h3; omega
  | succ fuel ih =>
    intro b e hbe hen hfuel I1 I2
    have hbl : b < cs.length := by omega
    have hel : e - 1 < cs.length := by omega
    have he0 : e ≠ 0 := by omega
    have hb : GET_NUMBER store idx axis b = some cs[b] := by
      rw [hget b, List.getElem?_eq_getElem hbl]
    have he : GET_NUMBER store idx axis (e - 1) = some cs[e - 1] := by
      rw [hget (e - 1), List.getElem?_eq_getElem hel]
    rw [binarySearch_succ store idx axis v true fuel b e _ _ hb he0 he,
      binarySearch_succ store idx axis v false fuel b e _ _ hb he0 he]
    simp only [if_true, Bool.false_eq_true, if_false]
    by_cases h1 : v < cs[b]
    · simp only [h1, if_true]
      refine ⟨b, b, rfl, rfl, le_refl _, by omega, I1, ?_⟩
      intro k hk hbk
      exact le_trans h1.le (hs b k hbl hk hbk)
    · simp only [h1, if_false]
      by_cases h2 : v > cs[e - 1]
      · simp only [h2, if_true]
        refine ⟨e, e, rfl, rfl, le_refl _, hen, ?_, I2⟩
        intro k hk hke
        exact le_trans (hs k (e - 1) hk hel (by omega)) (le_of_lt h2)
      · simp only [h2, if_false]
        by_cases h3 : (e : Int) - (b : Int) ≤ 2
        · simp only [h3, if_true]
          by_cases h3b : v > cs[b]
          · simp only [h3b, if_true]
            exact ⟨b, e, rfl, rfl, by omega, hen, I1, I2⟩
          · simp only [h3b, if_false]
            refine ⟨b, b + 1, rfl, rfl, by omega, by omega, I1, ?_⟩
            intro k hk hbk
            exact le_trans (not_lt.mp h3b) (hs b k hbl hk (by omega))
        · simp only [h3, if_false]
          by_cases h4 : v = cs[b]
          · simp only [h4, if_true]
            have hb1 : 1 ≤ b := by
              rcases Nat.eq_zero_or_pos b with h0 | h0
              · exfalso
                subst h0
                exact hfirst cs[0] (List.getElem?_eq_getElem hbl) h4.symm
              · exact h0
            obtain ⟨L, hL, _, hLb⟩ := extendDown_some store idx axis cs hget cs[b]
              (fun a ha => h4 ▸ hfirst a ha) b hb1 (by omega)
            obtain ⟨H, hH, hbH, hHn⟩ := extendUp_some store idx axis cs hget cs[b]
              (fun a ha => h4 ▸ hlast a ha) (idx.length + 1) b hbl (by omega)
            refine ⟨L, H, hL, hH, by omega, by omega, ?_, ?_⟩
            · intro k hk hkL
              have hI := I1 k hk (by omega)
              rw [h4] at hI
              exact hI
            · intro k hk hHk
              exact hs b k hbl hk (by omega)
          · simp only [h4, if_false]
            by_cases h5 : v = cs[e - 1]
            · simp only [h5, if_true]
              have hen' : e < cs.length := by
                rcases Nat.lt_or_ge e cs.length with h | h
                · exact h
                · exfalso
                  have hee : e = cs.length := by omega
                  subst hee
                  exact hlast cs[cs.length - 1] (List.getElem?_eq_getElem hel) h5.symm
              obtain ⟨L, hL, _, hLe⟩ := extendDown_some store idx axis cs hget cs[e - 1]
                (fun a ha => h5 ▸ hfirst a ha) e (by omega) hen
              obtain ⟨H, hH, heH, hHn⟩ := extendUp_some store idx axis cs hget cs[e - 1]
                (fun a ha => h5 ▸ hlast a ha) (idx.length + 1) e hen' (by omega)
              refine ⟨L, H, hL, hH, by omega, by omega, ?_, ?_⟩
              · intro k hk hkL
                exact hs k (e - 1) hk hel (by omega)
              · intro k hk hHk
                have hI := I2 k hk (by omega)
                rw [h5] at hI
                exact hI
            · simp only [h5, if_false]
              have hm1 : b < b + (e - b) / 2 := by omega
              have hm2 : b + (e - b) / 2 < e := by omega
              have hml : b + (e - b) / 2 < cs.length := by omega
              have hm : GET_NUMBER store idx axis (b + (e - b) / 2) =
                  some cs[b + (e - b) / 2] := by
                rw [hget _, List.getElem?_eq_getElem hml]
              simp only [hm]
              by_cases h6 : cs[b + (e - b) / 2] ≤ v
              · simp only [h6, if_true]
                apply ih (b + (e - b) / 2) e hm2 hen (by omega) _ I2
                intro k hk hkm
                exact le_trans (hs k _ hk hml (by omega)) h6
              · simp only [h6, if_false]
                apply ih b (b + (e - b) / 2) hm1 (by omega) (by omega) I1
                intro k hk hmk
                exact le_trans (le_of_lt (not_le.mp h6)) (hs _ k hml hk hmk)

theorem safeSearch_eq (store : List Point) (idx : List Nat) (axis : Int) (number : ℚ)
    (low : Bool) (begin end_ : Nat) (bn en : ℚ)
    (hb : GET_NUMBER store idx axis begin = some bn) (he0 : end_ ≠ 0)
    (hen : GET_NUMBER store idx axis (end_ - 1) = some en) :
    safeSearch store idx axis number low begin end_ =
      if number ≤ bn then some begin
      else if number ≥ en then some end_
      else binarySearch store idx axis number low (end_ - begin + 1) begin end_ := by
  rw [safeSearch]
  simp only [hb, he0, if_false, hen]

/-- On a non-empty sorted range the lower boundary search of `lo` is at most the
upper boundary search of `hi` when `lo <= hi`; both return. -/
theorem safeSearch_ordered_of_sorted (store : List Point) (idx : List Nat) (axis : Int)
    (cs : List ℚ) (hcs : axisValues store axis idx = some cs)
    (hsorted : cs.Pairwise (fun a b => a ≤ b)) (hne : idx ≠ []) (lo hi : ℚ) (hle : lo ≤ hi) :
    ∃ b e : Nat,
      safeSearch store idx axis lo true 0 idx.length = some b ∧
      safeSearch store idx axis hi false 0 idx.length = some e ∧
      b ≤ e ∧ e ≤ idx.length := by
  obtain ⟨hlen, hget⟩ := GET_NUMBER_of_axisValues store axis idx cs hcs
  have hs := sorted_getElem_le cs hsorted
  have hpos : 0 < idx.length := List.length_pos.mpr hne
  have h0l : 0 < cs.length := by omega
  have hnl : idx.length - 1 < cs.length := by omega
  have hn0 : idx.length ≠ 0 := by omega
  have hb : GET_NUMBER store idx axis 0 = some cs[0] := by
    rw [hget 0, List.getElem?_eq_getElem h0l]
  have he : GET_NUMBER store idx axis (idx.length - 1) = some cs[idx.length - 1] := by
    rw [hget _, List.getElem?_eq_getElem hnl]
  have hfirst : ∀ v : ℚ, ¬ v ≤ cs[0] → ∀ a : ℚ, cs[0]? = some a → a ≠ v := by
    intro v hv a ha
    rw [List.getElem?_eq_getElem h0l, Option.some.injEq] at ha
    intro hav
    apply hv
    rw [← hav, ha]
  have hlast : ∀ v : ℚ, ¬ v ≥ cs[idx.length - 1] →
      ∀ a : ℚ, cs[cs.length - 1]? = some a → a ≠ v := by
    intro v hv a ha
    have hidx : cs.length - 1 = idx.length - 1 := by omega
    have hlt : cs.length - 1 < cs.length := by omega
    rw [List.getElem?_eq_getElem hlt, Option.some.injEq] at ha
    intro hav
    apply hv
    rw [← hav, ← ha]
    simp only [hidx]
    exact le_refl _
  have hbs : ∀ v : ℚ, ¬ v ≤ cs[0] → ¬ v ≥ cs[idx.length - 1] →
      ∃ L H : Nat,
        binarySearch store idx axis v true (idx.length - 0 + 1) 0 idx.length = some L ∧
        binarySearch store idx axis v false (idx.length - 0 + 1) 0 idx.length = some H ∧
        L ≤ H ∧ H ≤ cs.length ∧
        (∀ (k : Nat) (hk : k < cs.length), k < L → cs[k] ≤ v) ∧
        (∀ (k : Nat) (hk : k < cs.length), H ≤ k → v ≤ cs[k]) := by
    intro v hv1 hv2
    exact binarySearch_bounds store idx axis cs hget hlen hs v (hfirst v hv1) (hlast v hv2)
      (idx.length - 0 + 1) 0 idx.length hpos (by omega) (by omega)
      (fun k _ hk => absurd hk (Nat.not_lt_zero k))
      (fun k hk hk2 => absurd hk (by omega))
  rw [safeSearch_eq store idx axis lo true 0 idx.length _ _ hb hn0 he,
    safeSearch_eq store idx axis hi false 0 idx.length _ _ hb hn0 he]
  by_cases hlo1 : lo ≤ cs[0]
  · rw [if_pos hlo1]
    by_cases hhi1 : hi ≤ cs[0]
    · rw [if_pos hhi1]
      exact ⟨0, 0, rfl, rfl, le_refl _, Nat.zero_le _⟩
    · rw [if_neg hhi1]
      by_cases hhi2 : hi ≥ cs[idx.length - 1]
      · rw [if_pos hhi2]
        exact ⟨0, idx.length, rfl, rfl, Nat.zero_le _, le_refl _⟩
      · rw [if_neg hhi2]
        obtain ⟨L, H, _, hH, _, hHn, _, _⟩ := hbs hi hhi1 hhi2
        exact ⟨0, H, rfl, hH, Nat.zero_le _, by omega⟩
  · rw [if_neg hlo1]
    have hhi1 : ¬ hi ≤ cs[0] := fun h => hlo1 (le_trans hle h)
    rw [if_neg hhi1]
    by_cases hlo2 : lo ≥ cs[idx.length - 1]
    · rw [if_pos hlo2]
      have hhi2 : hi ≥ cs[idx.length - 1] := le_trans hlo2 hle
      rw [if_pos hhi2]
      exact ⟨idx.length, idx.length, rfl, rfl, le_refl _, le_refl _⟩
    · rw [if_neg hlo2]
      obtain ⟨L, H, hL, _, hLH, hHn, hPL, _⟩ := hbs lo hlo1 hlo2
      by_cases hhi2 : hi ≥ cs[idx.length - 1]
      · rw [if_pos hhi2]
        exact ⟨L, idx.length, hL, rfl, by omega, le_refl _⟩
      · rw [if_neg hhi2]
        obtain ⟨L₂, H₂, hL₂, hH₂, hLH₂, hHn₂, _, hPH₂⟩ := hbs hi hhi1 hhi2
        refine ⟨L, H₂, hL, hH₂, ?_, by omega⟩
        rcases eq_or_lt_of_le hle with heq | hlt
        · subst heq
          rw [hL] at hL₂
          have : L = L₂ := Option.some.inj hL₂
          omega
        · by_contra hcon
          have hk : H₂ < cs.length := by omega
          have h1 := hPL H₂ hk (by omega)
          have h2 := hPH₂ H₂ hk (le_refl _)
          exact absurd (lt_of_lt_of_le hlt h2) (not_lt.mpr h1)

/-- C16: under the guard of `safeSearch` (a range of `n >= 1` elements sorted by
the axis coordinate, `coordinate[0] < v < coordinate[n-1]`) the boundary search
returns, for either value of `low`, an index `<= n`, through `binarySearch`. In
the model a read outside `[0, n)` and a loop that does not stop give no result,
so every access is in range and every loop stops. In particular the loop that
reads `*(p - 1)` stops with `p >= 1` from any start `p` in `[1, n]`, and the loop
that reads `*p` stops with `p < n` from any start `p < n`. -/
theorem binarySearch_reads_in_range (store : List Point) (idx : List Nat) (axis : Int)
    (cs : List ℚ) (v first last : ℚ) (hcs : axisValues store axis idx = some cs)
    (hsorted : cs.Pairwise (fun a b => a ≤ b)) (hne : 1 ≤ idx.length)
    (hfirst : cs[0]? = some first) (hlast : cs[idx.length - 1]? = some last)
    (hlo : first < v) (hhi : v < last) :
    (∀ low : Bool, ∃ k : Nat,
      safeSearch store idx axis v low 0 idx.length = some k ∧
      binarySearch store idx axis v low (idx.length - 0 + 1) 0 idx.length = some k ∧
      k ≤ idx.length) ∧
    (∀ p : Nat, 1 ≤ p → p ≤ idx.length →
      ∃ k : Nat, extendDown store idx axis v p = some k ∧ 1 ≤ k ∧ k ≤ p) ∧
    (∀ p : Nat, p < idx.length →
      ∃ k : Nat, extendUp store idx axis v (idx.length + 1) p = some k ∧ p ≤ k ∧
        k < idx.length) := by
  obtain ⟨hlen, hget⟩ := GET_NUMBER_of_axisValues store axis idx cs hcs
  have hs := sorted_getElem_le cs hsorted
  have h0l : 0 < cs.length := by omega
  have hnl : idx.length - 1 < cs.length := by omega
  have hn0 : idx.length ≠ 0 := by omega
  have hf : ∀ a : ℚ, cs[0]? = some a → a ≠ v := by
    intro a ha
    rw [hfirst, Option.some.injEq] at ha
    rw [← ha]
    exact ne_of_lt hlo
  have hl : ∀ a : ℚ, cs[cs.length - 1]? = some a → a ≠ v := by
    intro a ha
    rw [hlen, hlast, Option.some.injEq] at ha
    rw [← ha]
    exact ne_of_gt hhi
  have hb : GET_NUMBER store idx axis 0 = some first := by rw [hget 0, hfirst]
  have he : GET_NUMBER store idx axis (idx.length - 1) = some last := by rw [hget _, hlast]
  obtain ⟨L, H, hL, hH, hLH, hHn, _, _⟩ :=
    binarySearch_bounds store idx axis cs hget hlen hs v hf hl
      (idx.length - 0 + 1) 0 idx.length (by omega) (by omega) (by omega)
      (fun k _ hk => absurd hk (Nat.not_lt_zero k))
      (fun k hk hk2 => absurd hk (by omega))
  refine ⟨?_, ?_, ?_⟩
  · intro low
    rw [safeSearch_eq store idx axis v low 0 idx.length _ _ hb hn0 he,
      if_neg (not_le.mpr hlo), if_neg (not_le.mpr hhi)]
    cases low
    · exact ⟨H, hH, hH, by omega⟩
    · exact ⟨L, hL, hL, by omega⟩
  · intro p hp1 hp2
    exact extendDown_some store idx axis cs hget v hf p hp1 (by omega)
  · intro p hp
    obtain ⟨k, hk, h1, h2⟩ :=
      extendUp_some store idx axis cs hget v hl (idx.length + 1) p (by omega) (by omega)
    exact ⟨k, hk, h1, by omega⟩

/-- The guard of C16 on the x index of `probePts` with the bound 1. -/
theorem binarySearch_reads_in_range_witness :
    axisValues (create false probePts).allPoints X_AXIS (create false probePts).xSorted =
      some [0, 2, 4, 6, 8] ∧
    ([0, 2, 4, 6, 8] : List ℚ).Pairwise (fun a b => a ≤ b) ∧
    1 ≤ (create false probePts).xSorted.length ∧
    ([0, 2, 4, 6, 8] : List ℚ)[0]? = some 0 ∧
    ([0, 2, 4, 6, 8] : List ℚ)[(create false probePts).xSorted.length - 1]? = some 8 ∧
    (0 : ℚ) < 1 ∧ (1 : ℚ) < 8 ∧
    ((∀ low : Bool, ∃ k : Nat,
      safeSearch (create false probePts).allPoints (create false probePts).xSorted X_AXIS 1 low
        0 (create false probePts).xSorted.length = some k ∧
      binarySearch (create false probePts).allPoints (create false probePts).xSorted X_AXIS 1 low
        ((create false probePts).xSorted.length - 0 + 1) 0
        (create false probePts).xSorted.length = some k ∧
      k ≤ (create false probePts).xSorted.length) ∧
    (∀ p : Nat, 1 ≤ p → p ≤ (create false probePts).xSorted.length →
      ∃ k : Nat, extendDown (create false probePts).allPoints (create false probePts).xSorted
        X_AXIS 1 p = some k ∧ 1 ≤ k ∧ k ≤ p) ∧
    (∀ p : Nat, p < (create false probePts).xSorted.length →
      ∃ k : Nat, extendUp (create false probePts).allPoints (create false probePts).xSorted
        X_AXIS 1 ((create false probePts).xSorted.length + 1) p = some k ∧ p ≤ k ∧
        k < (create false probePts).xSorted.length)) :=
  ⟨by decide, by decide, by decide, by decide, by decide, by decide, by decide,
    binarySearch_reads_in_range (create false probePts).allPoints
      (create false probePts).xSorted X_AXIS [0, 2, 4, 6, 8] 1 0 8
      (by decide) (by decide) (by decide) (by decide) (by decide) (by decide) (by decide)⟩

/-! ## The axis indexes that `create` builds -/

theorem axisValues_map_val (store : List Point) (axis : Int) :
    ∀ l : List (Fin store.length),
      axisValues store axis (l.map Fin.val) =
        some (l.map (fun a => if axis = X_AXIS then (store.get a).x else (store.get a).y))
  | [] => rfl
  | a :: l => by
    have ih := axisValues_map_val store axis l
    have ha : store[(a : Nat)]? = some (store.get a) := by
      rw [List.getElem?_eq_getElem a.isLt]
      rfl
    simp only [List.map_cons, axisValues, ha, ih]

/-- An axis index sorted by `qsort` with a comparator that is `<= 0` exactly
when the keys are in order has its keys in non-decreasing order. -/
theorem qsort_keys_sorted {α : Type} (cmp : α → α → Int) (key : α → ℚ)
    (hcmp : ∀ a b : α, cmp a b ≤ 0 ↔ key a ≤ key b) (l : List α) :
    ((qsort cmp l).map key).Pairwise (fun a b => a ≤ b) := by
  have hcongr : qsort cmp l = l.insertionSort (fun a b => key a ≤ key b) := by
    unfold qsort
    apply insertionSort_congr
    intro a _ b _
    exact hcmp a b
  rw [hcongr, List.pairwise_map]
  haveI : IsTotal α (fun a b => key a ≤ key b) := ⟨fun a b => le_total (key a) (key b)⟩
  haveI : IsTrans α (fun a b => key a ≤ key b) := ⟨fun a b c h1 h2 => le_trans h1 h2⟩
  exact List.sorted_insertionSort (fun a b => key a ≤ key b) l

theorem xComp_le_zero_iff (store : List Point) (a b : Fin store.length) :
    xComp store a b ≤ 0 ↔ (store.get a).x ≤ (store.get b).x := by
  unfold xComp
  by_cases h : (store.get a).x > (store.get b).x
  · rw [if_pos h]
    exact ⟨fun h1 => absurd h1 (by decide), fun h1 => absurd h (not_lt.mpr h1)⟩
  · rw [if_neg h]
    exact ⟨fun _ => not_lt.mp h, fun _ => by decide⟩

theorem yComp_le_zero_iff (store : List Point) (a b : Fin store.length) :
    yComp store a b ≤ 0 ↔ (store.get a).y ≤ (store.get b).y := by
  unfold yComp
  by_cases h : (store.get a).y > (store.get b).y
  · rw [if_pos h]
    exact ⟨fun h1 => absurd h1 (by decide), fun h1 => absurd h (not_lt.mpr h1)⟩
  · rw [if_neg h]
    exact ⟨fun _ => not_lt.mp h, fun _ => by decide⟩

theorem qsort_length {α : Type} (cmp : α → α → Int) (l : List α) :
    (qsort cmp l).length = l.length := by
  unfold qsort
  exact List.length_insertionSort _ l

/-- The x index of a handle of the Dual-axis build: as long as the input, its
x coordinates in non-decreasing order. -/
theorem create_xSorted_sorted (points : List Point) :
    ∃ cs : List ℚ,
      axisValues (create false points).allPoints X_AXIS (create false points).xSorted = some cs ∧
      cs.Pairwise (fun a b => a ≤ b) ∧
      (create false points).xSorted.length = points.length := by
  refine ⟨_, axisValues_map_val (qsort rankComp points) X_AXIS
    (qsort (xComp (qsort rankComp points)) (List.finRange (qsort rankComp points).length)),
    ?_, ?_⟩
  · simp only [if_true]
    exact qsort_keys_sorted _ (fun a => ((qsort rankComp points).get a).x)
      (xComp_le_zero_iff _) _
  · show ((qsort (xComp (qsort rankComp points))
      (List.finRange (qsort rankComp points).length)).map Fin.val).length = points.length
    rw [List.length_map, qsort_length, List.length_finRange, qsort_length]

/-- The y index of a handle of the Dual-axis build: as long as the input, its
y coordinates in non-decreasing order. -/
theorem create_ySorted_sorted (points : List Point) :
    ∃ cs : List ℚ,
      axisValues (create false points).allPoints Y_AXIS (create false points).ySorted = some cs ∧
      cs.Pairwise (fun a b => a ≤ b) ∧
      (create false points).ySorted.length = points.length := by
  refine ⟨_, axisValues_map_val (qsort rankComp points) Y_AXIS
    (qsort (yComp (qsort rankComp points)) (List.finRange (qsort rankComp points).length)),
    ?_, ?_⟩
  · have hy : ¬ (Y_AXIS = X_AXIS) := by decide
    simp only [hy, if_false]
    exact qsort_keys_sorted _ (fun a => ((qsort rankComp points).get a).y)
      (yComp_le_zero_iff _) _
  · show ((qsort (yComp (qsort rankComp points))
      (List.finRange (qsort rankComp points).length)).map Fin.val).length = points.length
    rw [List.length_map, qsort_length, List.length_finRange, qsort_length]

/-- In the Dual-axis search on a handle built by `create` from a non-empty
input, with `lx <= hx` and `ly <= hy`, the four boundary searches return, and
`xEnd - xBegin`, `yEnd - yBegin` and `numElements` are not negative. -/
theorem create_subranges_nonneg (points : List Point) (rect : Rect) (hne : points ≠ [])
    (hlen : points.length < 2147483648) (hx : rect.lx ≤ rect.hx) (hy : rect.ly ≤ rect.hy) :
    ∃ xBegin xEnd yBegin yEnd : Nat,
      safeSearch (create false points).allPoints (create false points).xSorted X_AXIS rect.lx
        true 0 (create false points).numPoints.toNat = some xBegin ∧
      safeSearch (create false points).allPoints (create false points).xSorted X_AXIS rect.hx
        false 0 (create false points).numPoints.toNat = some xEnd ∧
      safeSearch (create false points).allPoints (create false points).ySorted Y_AXIS rect.ly
        true 0 (create false points).numPoints.toNat = some yBegin ∧
      safeSearch (create false points).allPoints (create false points).ySorted Y_AXIS rect.hy
        false 0 (create false points).numPoints.toNat = some yEnd ∧
      (0 : Int) ≤ (xEnd : Int) - (xBegin : Int) ∧ (0 : Int) ≤ (yEnd : Int) - (yBegin : Int) ∧
      (0 : Int) ≤ ((xEnd : Int) - (xBegin : Int)) + ((yEnd : Int) - (yBegin : Int)) := by
  obtain ⟨cx, hcx, hsx, hlx⟩ := create_xSorted_sorted points
  obtain ⟨cy, hcy, hsy, hly⟩ := create_ySorted_sorted points
  have hpos : 0 < points.length := List.length_pos.mpr hne
  have hnum : (create false points).numPoints.toNat = points.length := by
    show (wrapI32 (points.length : Int)).toNat = points.length
    rw [wrapI32_of_inRange _ (by omega) (by omega)]
    exact Int.toNat_ofNat _
  have hxne : (create false points).xSorted ≠ [] := by
    intro h
    rw [h] at hlx
    simp at hlx
    omega
  have hyne : (create false points).ySorted ≠ [] := by
    intro h
    rw [h] at hly
    simp at hly
    omega
  obtain ⟨xb, xe, h1, h2, h3, _⟩ := safeSearch_ordered_of_sorted _ _ X_AXIS cx hcx hsx hxne
    rect.lx rect.hx hx
  obtain ⟨yb, ye, h4, h5, h6, _⟩ := safeSearch_ordered_of_sorted _ _ Y_AXIS cy hcy hsy hyne
    rect.ly rect.hy hy
  rw [hlx] at h1 h2
  rw [hly] at h4 h5
  rw [hnum]
  exact ⟨xb, xe, yb, ye, h1, h2, h4, h5, by omega, by omega, by omega⟩

/-- C17: on every non-empty range sorted by the axis coordinate, for all bounds
`lo <= hi`, both boundary searches return and `safeSearch(lo, low = true)` is at
most `safeSearch(hi, low = false)`; hence in the Dual-axis search on a handle
built by `create` from a non-empty input, with `lx <= hx` and `ly <= hy`, the
lengths `xEnd - xBegin`, `yEnd - yBegin` and `numElements` are not negative. -/
theorem safeSearch_low_le_high (store : List Point) (idx : List Nat) (axis : Int)
    (cs : List ℚ) (lo hi : ℚ) (hcs : axisValues store axis idx = some cs)
    (hsorted : cs.Pairwise (fun a b => a ≤ b)) (hne : idx ≠ []) (hle : lo ≤ hi) :
    (∃ b e : Nat,
      safeSearch store idx axis lo true 0 idx.length = some b ∧
      safeSearch store idx axis hi false 0 idx.length = some e ∧
      b ≤ e ∧ e ≤ idx.length) ∧
    (∀ (points : List Point) (rect : Rect), points ≠ [] → points.length < 2147483648 →
      rect.lx ≤ rect.hx → rect.ly ≤ rect.hy →
      ∃ xBegin xEnd yBegin yEnd : Nat,
        safeSearch (create false points).allPoints (create false points).xSorted X_AXIS rect.lx
          true 0 (create false points).numPoints.toNat = some xBegin ∧
        safeSearch (create false points).allPoints (create false points).xSorted X_AXIS rect.hx
          false 0 (create false points).numPoints.toNat = some xEnd ∧
        safeSearch (create false points).allPoints (create false points).ySorted Y_AXIS rect.ly
          true 0 (create false points).numPoints.toNat = some yBegin ∧
        safeSearch (create false points).allPoints (create false points).ySorted Y_AXIS rect.hy
          false 0 (create false points).numPoints.toNat = some yEnd ∧
        (0 : Int) ≤ (xEnd : Int) - (xBegin : Int) ∧ (0 : Int) ≤ (yEnd : Int) - (yBegin : Int) ∧
        (0 : Int) ≤ ((xEnd : Int) - (xBegin : Int)) + ((yEnd : Int) - (yBegin : Int))) :=
  ⟨safeSearch_ordered_of_sorted store idx axis cs hcs hsorted hne lo hi hle,
    fun points rect h1 h2 h3 h4 => create_subranges_nonneg points rect h1 h2 h3 h4⟩

/-- The bounds 1 and 7 on the x index of `probePts`. -/
theorem safeSearch_low_le_high_witness :
    axisValues (create false probePts).allPoints X_AXIS (create false probePts).xSorted =
      some [0, 2, 4, 6, 8] ∧
    ([0, 2, 4, 6, 8] : List ℚ).Pairwise (fun a b => a ≤ b) ∧
    (create false probePts).xSorted ≠ [] ∧ (1 : ℚ) ≤ 7 ∧
    ((∃ b e : Nat,
      safeSearch (create false probePts).allPoints (create false probePts).xSorted X_AXIS 1
        true 0 (create false probePts).xSorted.length = some b ∧
      safeSearch (create false probePts).allPoints (create false probePts).xSorted X_AXIS 7
        false 0 (create false probePts).xSorted.length = some e ∧
      b ≤ e ∧ e ≤ (create false probePts).xSorted.length) ∧
    (∀ (points : List Point) (rect : Rect), points ≠ [] → points.length < 2147483648 →
      rect.lx ≤ rect.hx → rect.ly ≤ rect.hy →
      ∃ xBegin xEnd yBegin yEnd : Nat,
        safeSearch (create false points).allPoints (create false points).xSorted X_AXIS rect.lx
          true 0 (create false points).numPoints.toNat = some xBegin ∧
        safeSearch (create false points).allPoints (create false points).xSorted X_AXIS rect.hx
          false 0 (create false points).numPoints.toNat = some xEnd ∧
        safeSearch (create false points).allPoints (create false points).ySorted Y_AXIS rect.ly
          true 0 (create false points).numPoints.toNat = some yBegin ∧
        safeSearch (create false points).allPoints (create false points).ySorted Y_AXIS rect.hy
          false 0 (create false points).numPoints.toNat = some yEnd ∧
        (0 : Int) ≤ (xEnd : Int) - (xBegin : Int) ∧ (0 : Int) ≤ (yEnd : Int) - (yBegin : Int) ∧
        (0 : Int) ≤ ((xEnd : Int) - (xBegin : Int)) + ((yEnd : Int) - (yBegin : Int)))) :=
  ⟨by decide, by decide, by decide, by decide,
    safeSearch_low_le_high (create false probePts).allPoints (create false probePts).xSorted
      X_AXIS [0, 2, 4, 6, 8] 1 7 (by decide) (by decide) (by decide) (by decide)⟩

/-! ## The intersection merge -/

theorem readMerged_lt (merged : List Nat) (pastEnd : Option Nat) (i : Nat)
    (h : i < merged.length) : readMerged merged pastEnd i = some merged[i] := by
  rw [readMerged, if_pos h, List.getElem?_eq_getElem h]

theorem readMerged_length (merged : List Nat) (pastEnd : Option Nat) :
    readMerged merged pastEnd merged.length = pastEnd := by
  rw [readMerged, if_neg (Nat.lt_irrefl _), if_pos rfl]

theorem derefAll_cons (store : List Point) (a : Nat) (l : List Nat) (p : Point)
    (hp : store[a]? = some p) : derefAll store (a :: l) = p :: derefAll store l := by
  simp [derefAll, hp]

theorem derefAll_length (store : List Point) :
    ∀ l : List Nat, (∀ a ∈ l, a < store.length) → (derefAll store l).length = l.length
  | [], _ => rfl
  | a :: l, h => by
    have ha : a < store.length := h a (List.mem_cons_self a l)
    rw [derefAll_cons store a l store[a] (List.getElem?_eq_getElem ha), List.length_cons,
      List.length_cons,
      derefAll_length store l (fun b hb => h b (List.mem_cons_of_mem a hb))]

theorem derefAll_getElem? (store : List Point) :
    ∀ (l : List Nat), (∀ a ∈ l, a < store.length) → ∀ (j : Nat) (hj : j < l.length),
      (derefAll store l)[j]? = store[l[j]]?
  | [], _, j, hj => by simp at hj
  | a :: l, h, j, hj => by
    have ha : a < store.length := h a (List.mem_cons_self a l)
    rw [derefAll_cons store a l store[a] (List.getElem?_eq_getElem ha)]
    cases j with
    | zero => simp [List.getElem?_eq_getElem ha]
    | succ j =>
      have hj2 : j < l.length := by simpa using hj
      simp only [List.getElem?_cons_succ, List.getElem_cons_succ]
      exact derefAll_getElem? store l (fun b hb => h b (List.mem_cons_of_mem a hb)) j hj2

/-- The scan loop, when the slot past the end of the working array does not
hold the last reference: it emits the points referred to by the first
`count - numResults` adjacent equal pairs found from position `i` on. -/
theorem scanLoop_eq (merged : List Nat) (v : Nat) (count : Int)
    (hv : ∀ a : Nat, merged.getLast? = some a → v ≠ a) :
    ∀ (fuel i nr : Nat) (m : Mem), (∀ a ∈ merged, a < m.obj.allPoints.length) →
      i ≤ merged.length → merged.length - i ≤ fuel →
      scanLoop merged (some v) count fuel i nr m =
        some (((nr + ((adjacentPairs (merged.drop i)).take (count - nr).toNat).length : Nat) : Int),
          { obj := m.obj,
            out := writeList m.out nr (derefAll m.obj.allPoints
              ((adjacentPairs (merged.drop i)).take (count - nr).toNat)) }) := by
  intro fuel
  induction fuel with
  | zero =>
    intro i nr m _ hi hfuel
    have hil : i = merged.length := by omega
    subst hil
    simp [scanLoop, adjacentPairs, derefAll, writeList]
  | succ fuel ih =>
    intro i nr m hvalid hi hfuel
    rw [scanLoop]
    by_cases hc : i < merged.length ∧ (nr : Int) < count
    · rw [if_pos hc]
      obtain ⟨hil, hn⟩ := hc
      have hcnt : (count - (nr : Int)).toNat = (count - ((nr + 1 : Nat) : Int)).toNat + 1 := by
        omega
      rw [readMerged_lt merged _ i hil]
      rcases Nat.lt_or_ge (i + 1) merged.length with hi1 | hi1
      · rw [readMerged_lt merged _ (i + 1) hi1]
        simp only []
        have hdrop : merged.drop i = merged[i] :: merged[i + 1] :: merged.drop (i + 2) := by
          rw [List.drop_eq_getElem_cons hil, List.drop_eq_getElem_cons hi1]
        by_cases hab : merged[i] = merged[i + 1]
        · rw [if_pos hab]
          have ha : merged[i] < m.obj.allPoints.length := hvalid _ (List.getElem_mem hil)
          rw [List.getElem?_eq_getElem ha]
          simp only []
          rw [ih (i + 2) (nr + 1) ⟨m.obj, Function.update m.out nr m.obj.allPoints[merged[i]]⟩
            hvalid (by omega) (by omega)]
          simp only [hdrop, adjacentPairs, hab, if_true]
          rw [hcnt, List.take_succ_cons,
            derefAll_cons _ _ _ _ (List.getElem?_eq_getElem (hab ▸ ha))]
          simp only [List.length_cons, writeList]
          congr 2
          push_cast
          omega
        · rw [if_neg hab]
          rw [ih (i + 1) nr m hvalid (by omega) (by omega)]
          have hdrop1 : merged.drop (i + 1) = merged[i + 1] :: merged.drop (i + 2) :=
            List.drop_eq_getElem_cons hi1
          simp only [hdrop, hdrop1, adjacentPairs, hab, if_false]
      · have hlen : i + 1 = merged.length := by omega
        rw [hlen, readMerged_length]
        simp only []
        have hlast : merged.getLast? = some merged[i] := by
          rw [List.getLast?_eq_getElem?]
          have : merged.length - 1 = i := by omega
          rw [this, List.getElem?_eq_getElem hil]
        have hne : ¬ merged[i] = v := fun h => hv _ hlast h.symm
        rw [if_neg hne, ← hlen]
        rw [ih (i + 1) nr m hvalid (by omega) (by omega)]
        have hdrop : merged.drop i = [merged[i]] := by
          rw [List.drop_eq_getElem_cons hil, List.drop_of_length_le (by omega)]
        have hdrop1 : merged.drop (i + 1) = [] := List.drop_of_length_le (by omega)
        simp only [hdrop, hdrop1, adjacentPairs]
    · rw [if_neg hc]
      rw [not_and_or] at hc
      rcases hc with hc | hc
      · have hdrop : merged.drop i = [] := List.drop_of_length_le (by omega)
        simp [hdrop, adjacentPairs, derefAll, writeList]
      · have h0 : (count - (nr : Int)).toNat = 0 := by omega
        simp [h0, derefAll, writeList]

/-- On a sorted list in which no value occurs more than twice, the adjacent
equal pairs are the values that occur twice, in increasing order. -/
theorem adjacentPairs_spec : ∀ (n : Nat) (l : List Nat), l.length ≤ n →
    l.Pairwise (fun a b => a ≤ b) → (∀ a : Nat, l.count a ≤ 2) →
    (adjacentPairs l).Pairwise (fun a b => a < b) ∧
    ∀ a : Nat, a ∈ adjacentPairs l ↔ 2 ≤ l.count a := by
  intro n
  induction n using Nat.strong_induction_on with
  | _ n ih =>
    intro l hlen hs hc
    match l, hlen, hs, hc with
    | [], _, _, _ =>
      exact ⟨List.Pairwise.nil, fun a => by simp [adjacentPairs]⟩
    | [x], _, _, _ =>
      refine ⟨List.Pairwise.nil, fun a => ?_⟩
      simp only [adjacentPairs, List.not_mem_nil, false_iff, not_le]
      by_cases hax : a = x
      · subst hax; simp
      · rw [List.count_cons_of_ne hax]; simp
    | x :: y :: t, hlen, hs, hc =>
      have hxy : x ≤ y := (List.pairwise_cons.mp hs).1 y (List.mem_cons_self y t)
      have hs1 : (y :: t).Pairwise (fun a b => a ≤ b) := (List.pairwise_cons.mp hs).2
      have hs2 : t.Pairwise (fun a b => a ≤ b) := (List.pairwise_cons.mp hs1).2
      have hyt : ∀ z ∈ t, y ≤ z := (List.pairwise_cons.mp hs1).1
      simp only [List.length_cons] at hlen
      by_cases hab : x = y
      · subst hab
        have hcx := hc x
        rw [List.count_cons_self, List.count_cons_self] at hcx
        have hxt : x ∉ t := by
          intro h
          have := List.count_pos_iff.mpr h
          omega
        have hct : ∀ a : Nat, t.count a ≤ 2 := by
          intro a
          have h1 := hc a
          by_cases hax : a = x
          · subst hax
            rw [List.count_eq_zero_of_not_mem hxt]
            omega
          · rw [List.count_cons_of_ne hax, List.count_cons_of_ne hax] at h1
            exact h1
        obtain ⟨ihs, ihm⟩ := ih (n - 2) (by omega) t (by omega) hs2 hct
        have heq : adjacentPairs (x :: x :: t) = x :: adjacentPairs t := by
          simp [adjacentPairs]
        rw [heq]
        refine ⟨List.pairwise_cons.mpr ⟨?_, ihs⟩, ?_⟩
        · intro z hz
          have hz2 : 2 ≤ t.count z := (ihm z).mp hz
          have hzt : z ∈ t := List.count_pos_iff.mp (by omega)
          have hle : x ≤ z := hyt z hzt
          have hne : x ≠ z := fun h => hxt (h ▸ hzt)
          omega
        · intro a
          rw [List.mem_cons, ihm a]
          by_cases hax : a = x
          · subst hax
            rw [List.count_cons_self, List.count_cons_self]
            constructor
            · intro _; omega
            · intro _; exact Or.inl rfl
          · rw [List.count_cons_of_ne hax, List.count_cons_of_ne hax]
            constructor
            · rintro (h | h)
              · exact absurd h hax
              · exact h
            · intro h; exact Or.inr h
      · have hlt : x < y := lt_of_le_of_ne hxy hab
        have hx1 : x ∉ y :: t := by
          intro h
          rcases List.mem_cons.mp h with h | h
          · exact hab h
          · have := hyt x h
            omega
        have hc1 : ∀ a : Nat, (y :: t).count a ≤ 2 := by
          intro a
          have h1 := hc a
          by_cases hax : a = x
          · subst hax
            rw [List.count_eq_zero_of_not_mem hx1]
            omega
          · rw [List.count_cons_of_ne hax] at h1
            exact h1
        obtain ⟨ihs, ihm⟩ := ih (n - 1) (by omega) (y :: t) (by simp only [List.length_cons]; omega)
          hs1 hc1
        have heq : adjacentPairs (x :: y :: t) = adjacentPairs (y :: t) := by
          simp [adjacentPairs, hab]
        rw [heq]
        refine ⟨ihs, ?_⟩
        intro a
        rw [ihm a]
        by_cases hax : a = x
        · subst hax
          rw [List.count_cons_self, List.count_eq_zero_of_not_mem hx1]
          omega
        · rw [List.count_cons_of_ne hax (y :: t)]

theorem pointerComp_le_zero_iff (a b : Nat) : pointerComp a b ≤ 0 ↔ a ≤ b := by
  unfold pointerComp
  omega

/-- The working array sorted with `pointerComp`, for sub-ranges without
repeated references, holds in its adjacent equal pairs the positions
referenced in both sub-ranges, in ascending order. -/
theorem adjacentPairs_qsort_eq (n : Nat) (xs ys : List Nat) (hX : xs.Nodup) (hY : ys.Nodup)
    (hvX : ∀ a ∈ xs, a < n) :
    adjacentPairs (qsort pointerComp (xs ++ ys)) = bothReferenced n xs ys := by
  have hperm : (qsort pointerComp (xs ++ ys)).Perm (xs ++ ys) := by
    unfold qsort
    exact List.perm_insertionSort _ _
  have hsorted : (qsort pointerComp (xs ++ ys)).Pairwise (fun a b => a ≤ b) := by
    have hcongr : qsort pointerComp (xs ++ ys) =
        (xs ++ ys).insertionSort (fun a b => a ≤ b) := by
      unfold qsort
      apply insertionSort_congr
      intro a _ b _
      exact pointerComp_le_zero_iff a b
    rw [hcongr]
    exact List.sorted_insertionSort (fun a b : Nat => a ≤ b) (xs ++ ys)
  have hcount : ∀ a : Nat, (qsort pointerComp (xs ++ ys)).count a = xs.count a + ys.count a := by
    intro a
    rw [hperm.count_eq a, List.count_append]
  have hcX := List.nodup_iff_count_le_one.mp hX
  have hcY := List.nodup_iff_count_le_one.mp hY
  have hle2 : ∀ a : Nat, (qsort pointerComp (xs ++ ys)).count a ≤ 2 := by
    intro a
    have h1 := hcX a
    have h2 := hcY a
    rw [hcount a]
    omega
  obtain ⟨hps, hpm⟩ := adjacentPairs_spec _ _ (le_refl _) hsorted hle2
  have hbs : (bothReferenced n xs ys).Pairwise (fun a b => a < b) :=
    List.Pairwise.filter _ (List.sorted_lt_range n)
  have hmem : ∀ a : Nat, a ∈ adjacentPairs (qsort pointerComp (xs ++ ys)) ↔
      a ∈ bothReferenced n xs ys := by
    intro a
    rw [hpm a, hcount a]
    simp only [bothReferenced, List.mem_filter, List.mem_range, decide_eq_true_eq]
    have h1 := hcX a
    have h2 := hcY a
    constructor
    · intro h
      have hx : a ∈ xs := List.count_pos_iff.mp (by omega)
      have hy : a ∈ ys := List.count_pos_iff.mp (by omega)
      exact ⟨hvX a hx, hx, hy⟩
    · rintro ⟨_, hx, hy⟩
      have := List.count_pos_iff.mpr hx
      have := List.count_pos_iff.mpr hy
      omega
  have hnd1 : (adjacentPairs (qsort pointerComp (xs ++ ys))).Nodup :=
    hps.imp (fun h => Nat.ne_of_lt h)
  have hnd2 : (bothReferenced n xs ys).Nodup := hbs.imp (fun h => Nat.ne_of_lt h)
  exact List.eq_of_perm_of_sorted (r := fun a b : Nat => a < b)
    ((List.perm_ext_iff_of_nodup hnd1 hnd2).mpr hmem) hps hbs

/-- The Dual-axis `search`, once the four boundary searches and the two copies
have returned, is the merge and scan of the two copied sub-ranges. -/
theorem searchDual_eq_mergeAndScan (pastEnd : Option Nat) (o : Object) (rect : Rect)
    (count : Int) (out_points : Nat → Point) (xBegin xEnd yBegin yEnd : Nat) (xs ys : List Nat)
    (hpos : ¬ o.numPoints ≤ 0)
    (h1 : safeSearch o.allPoints o.xSorted X_AXIS rect.lx true 0 o.numPoints.toNat = some xBegin)
    (h2 : safeSearch o.allPoints o.xSorted X_AXIS rect.hx false 0 o.numPoints.toNat = some xEnd)
    (h3 : safeSearch o.allPoints o.ySorted Y_AXIS rect.ly true 0 o.numPoints.toNat = some yBegin)
    (h4 : safeSearch o.allPoints o.ySorted Y_AXIS rect.hy false 0 o.numPoints.toNat = some yEnd)
    (hx : copyRange o.xSorted xBegin xEnd = some xs)
    (hy : copyRange o.ySorted yBegin yEnd = some ys) :
    searchDual pastEnd o rect count out_points =
      mergeAndScan pastEnd o count out_points xs ys := by
  simp only [searchDual, hpos, if_false, h1, h2, h3, h4, hx, hy, mergeAndScan]

theorem mem_bothReferenced (n : Nat) (xs ys : List Nat) (a : Nat) :
    a ∈ bothReferenced n xs ys ↔ a < n ∧ a ∈ xs ∧ a ∈ ys := by
  simp [bothReferenced]

/-- C14: for sub-ranges `xs`, `ys` of pairwise distinct references into the
store and a count `>= 0`, when the slot one past the working array does not
hold the last reference of the sorted array (the comparison against it is
"not equal"), the merge and scan returns; the points it emits are those in
the store slots referenced in both `xs` and `ys`, each slot once, in ascending
store position, cut to the first `count`; a slot referenced in only one of the
two is not among them; the value returned is their number. -/
theorem mergeAndScan_intersection (o : Object) (count : Int) (out_points : Nat → Point)
    (xs ys : List Nat) (v : Nat) (hX : xs.Nodup) (hY : ys.Nodup)
    (hvX : ∀ a ∈ xs, a < o.allPoints.length) (hvY : ∀ a ∈ ys, a < o.allPoints.length)
    (hcount : 0 ≤ count)
    (hv : (qsort pointerComp (xs ++ ys)).getLast? ≠ some v) :
    ∃ (n : Int) (m : Mem), mergeAndScan (some v) o count out_points xs ys = some (n, m) ∧
      n = (((bothReferenced o.allPoints.length xs ys).take count.toNat).length : Int) ∧
      n ≤ count ∧
      written m.out n =
        derefAll o.allPoints ((bothReferenced o.allPoints.length xs ys).take count.toNat) ∧
      (∀ (j : Nat) (hj : j < ((bothReferenced o.allPoints.length xs ys).take count.toNat).length),
        o.allPoints[((bothReferenced o.allPoints.length xs ys).take count.toNat)[j]]? =
          some (m.out j)) ∧
      (∀ a : Nat, a ∈ bothReferenced o.allPoints.length xs ys ↔ a ∈ xs ∧ a ∈ ys) ∧
      (bothReferenced o.allPoints.length xs ys).Pairwise (fun a b => a < b) ∧
      (bothReferenced o.allPoints.length xs ys).Nodup ∧
      m.obj = o := by
  have hperm : (qsort pointerComp (xs ++ ys)).Perm (xs ++ ys) := by
    unfold qsort
    exact List.perm_insertionSort _ _
  have hvalid : ∀ a ∈ qsort pointerComp (xs ++ ys), a < o.allPoints.length := by
    intro a ha
    rcases List.mem_append.mp (hperm.subset ha) with h | h
    · exact hvX a h
    · exact hvY a h
  have hv2 : ∀ a : Nat, (qsort pointerComp (xs ++ ys)).getLast? = some a → v ≠ a := by
    intro a ha hva
    apply hv
    rw [ha, hva]
  have hloop := scanLoop_eq (qsort pointerComp (xs ++ ys)) v count hv2
    (qsort pointerComp (xs ++ ys)).length 0 0 ⟨o, out_points⟩ hvalid (Nat.zero_le _) (by omega)
  simp only [List.drop_zero, Nat.cast_zero, sub_zero, Nat.zero_add,
    adjacentPairs_qsort_eq o.allPoints.length xs ys hX hY hvX] at hloop
  have hEvalid : ∀ a ∈ (bothReferenced o.allPoints.length xs ys).take count.toNat,
      a < o.allPoints.length := by
    intro a ha
    exact ((mem_bothReferenced _ _ _ _).mp (List.mem_of_mem_take ha)).1
  have hDlen := derefAll_length o.allPoints _ hEvalid
  have hbs : (bothReferenced o.allPoints.length xs ys).Pairwise (fun a b => a < b) :=
    List.Pairwise.filter _ (List.sorted_lt_range _)
  refine ⟨_, _, hloop, rfl, ?_, ?_, ?_, ?_, hbs, hbs.imp (fun h => Nat.ne_of_lt h), rfl⟩
  · rw [List.length_take]
    have : ((count.toNat : Nat) : Int) = count := Int.toNat_of_nonneg hcount
    omega
  · simp only []
    rw [← hDlen]
    exact written_writeList _ _
  · intro j hj
    simp only []
    have hj2 : j < (derefAll o.allPoints
        ((bothReferenced o.allPoints.length xs ys).take count.toNat)).length := by
      rw [hDlen]; exact hj
    have hget := writeList_get _ out_points 0 j hj2
    rw [Nat.zero_add] at hget
    rw [hget, ← derefAll_getElem? o.allPoints _ hEvalid j hj, List.getElem?_eq_getElem hj2]
  · intro a
    rw [mem_bothReferenced]
    exact ⟨fun h => h.2, fun h => ⟨hvX a h.1, h⟩⟩

/-- The merge and scan on the store of `probePts` with the sub-ranges
`[3, 1, 2]` and `[2, 4, 3]`, `count = 2`. -/
theorem mergeAndScan_intersection_witness :
    ([3, 1, 2] : List Nat).Nodup ∧ ([2, 4, 3] : List Nat).Nodup ∧
    (∀ a ∈ ([3, 1, 2] : List Nat), a < (create false probePts).allPoints.length) ∧
    (∀ a ∈ ([2, 4, 3] : List Nat), a < (create false probePts).allPoints.length) ∧
    (0 : Int) ≤ 2 ∧
    (qsort pointerComp ([3, 1, 2] ++ [2, 4, 3])).getLast? ≠ some 7 ∧
    resultOf (mergeAndScan (some 7) (create false probePts) 2 zeroBuf [3, 1, 2] [2, 4, 3]) =
      some (2, [⟨2, 2, 4, 2⟩, ⟨3, 3, 6, 14⟩]) ∧
    ∃ (n : Int) (m : Mem),
      mergeAndScan (some 7) (create false probePts) 2 zeroBuf [3, 1, 2] [2, 4, 3] = some (n, m) ∧
      n = (((bothReferenced (create false probePts).allPoints.length [3, 1, 2]
        [2, 4, 3]).take (2 : Int).toNat).length : Int) ∧
      n ≤ 2 ∧
      written m.out n =
        derefAll (create false probePts).allPoints
          ((bothReferenced (create false probePts).allPoints.length [3, 1, 2]
            [2, 4, 3]).take (2 : Int).toNat) ∧
      (∀ (j : Nat) (hj : j < ((bothReferenced (create false probePts).allPoints.length [3, 1, 2]
          [2, 4, 3]).take (2 : Int).toNat).length),
        (create false probePts).allPoints[((bothReferenced
          (create false probePts).allPoints.length [3, 1, 2]
          [2, 4, 3]).take (2 : Int).toNat)[j]]? = some (m.out j)) ∧
      (∀ a : Nat, a ∈ bothReferenced (create false probePts).allPoints.length [3, 1, 2]
        [2, 4, 3] ↔ a ∈ ([3, 1, 2] : List Nat) ∧ a ∈ ([2, 4, 3] : List Nat)) ∧
      (bothReferenced (create false probePts).allPoints.length [3, 1, 2]
        [2, 4, 3]).Pairwise (fun a b => a < b) ∧
      (bothReferenced (create false probePts).allPoints.length [3, 1, 2] [2, 4, 3]).Nodup ∧
      m.obj = create false probePts :=
  ⟨by decide, by decide, by decide, by decide, by decide, by decide, by decide,
    mergeAndScan_intersection (create false probePts) 2 zeroBuf [3, 1, 2] [2, 4, 3] 7
      (by decide) (by decide) (by decide) (by decide) (by decide) (by decide)⟩

end PointSearch
